import Mathlib

/-!
Verification development for the sel-linkedin-analyzer repository.

The repository holds two Streamlit source variants of one analysis pipeline:
`sel_linkedin_analyzer.py` (function `prep`, alias-based column mapping) and
`sel_x_analyzer.py` (functions `robust_read_csv`, `detect_column`,
`detect_columns`, `enrich`, the Overview posts-per-week block and the Compare
aggregation).  This file gives a shallow embedding of those functions and
proves or refutes the frozen behavioural claims about them.

Modelling conventions, shared by all sections:
- character data is modelled as `List Char` (named `Str` below); source string
  literals appear as explicit character lists so that every evaluation reduces
  in the kernel;
- a pandas cell is a `Cell`: `num n` stands for any cell that
  `pd.to_numeric(..., errors="coerce").astype(int)` turns into the integer `n`
  (integer literals, numeric strings, floats after truncation), `text s` for a
  cell that numeric coercion sends to NaN, `date d` for a cell that
  `pd.to_datetime(..., errors="coerce")` parses (measured in days), `boolv`
  for booleans, and `empty` for a missing value (NaN / NaT);
- a pandas exception that escapes a function is modelled with `Except` or
  `Option` (`none` = the call raises); the analysers define no error class of
  their own.
-/

namespace SelAnalyzer

/-- Character strings, modelled as lists of characters so that all string
operations are plain structural recursion. -/
abbrev Str := List Char

/-- Splitting a string at every occurrence of a separator character, the
semantics of `str.split(sep)` / the delimiter handling of `pd.read_csv`. -/
def splitOnC (sep : Char) : Str → List Str
  | [] => [[]]
  | c :: cs =>
    let r := splitOnC sep cs
    if c = sep then [] :: r
    else (c :: r.headD []) :: r.tail

/-- Lower-casing of a string, the semantics of `str.lower()` /
`Series.str.lower()` on ASCII column names and cells. -/
def lowerStr (s : Str) : Str := s.map Char.toLower

/-- Boolean prefix test on character lists. -/
def isPrefixB : Str → Str → Bool
  | [], _ => true
  | _ :: _, [] => false
  | a :: as, b :: bs => a = b && isPrefixB as bs

/-- Boolean substring-containment test: `needle in hay` / `re.search` for a
literal pattern. -/
def containsSub (needle : Str) : Str → Bool
  | [] => needle.isEmpty
  | c :: cs => isPrefixB needle (c :: cs) || containsSub needle cs

/-! ## Tolerant Decoder — `robust_read_csv` of `sel_x_analyzer.py`

The function decodes the uploaded bytes once and then tries, in order:
(1) `pd.read_csv(io.StringIO(content))` — comma;
(2) on `pd.errors.ParserError` only: `pd.read_csv(..., sep=';')`;
(3) on any error: `pd.read_csv(..., engine='python', on_bad_lines='warn')`;
(4) on any error: `pd.read_csv(..., encoding='latin1')` — the content is
    already a decoded `str`, so this repeats the comma parse;
(5) on any error: a manual line-splitting fallback that returns a possibly
    empty `DataFrame` instead of raising.
A successful attempt returns immediately, whatever the shape of its table. -/

/-- Errors of the underlying pandas parser that the model distinguishes:
`emptyData` is `pd.errors.EmptyDataError` (no content to parse), `parserError`
is `pd.errors.ParserError` (a row with more fields than the header), and
`valueError` stands for the `ValueError` that `pd.DataFrame(data, columns)`
raises on ragged manual-fallback data. -/
inductive PdError
  | emptyData
  | parserError
  | valueError
deriving DecidableEq

/-- A decoded rectangular table: a header of column names and one list of
string cells per data row. -/
structure STable where
  header : List Str
  rows : List (List Str)
deriving DecidableEq

/-- Decidable equality of parse results, so that concrete decoder runs can be
settled by evaluation. -/
instance {ε α : Type} [DecidableEq ε] [DecidableEq α] : DecidableEq (Except ε α) :=
  fun a b =>
    match a, b with
    | .ok x, .ok y =>
      if h : x = y then .isTrue (by rw [h]) else .isFalse (by simp [h])
    | .error x, .error y =>
      if h : x = y then .isTrue (by rw [h]) else .isFalse (by simp [h])
    | .ok _, .error _ => .isFalse (by simp)
    | .error _, .ok _ => .isFalse (by simp)

/-- Physical lines of the uploaded content as `pd.read_csv` sees them: split
on newline, blank lines skipped (`skip_blank_lines=True`, which also hides a
trailing newline). -/
def csvLines (content : Str) : List Str :=
  (splitOnC '\n' content).filter (fun l => !l.isEmpty)

/-- Padding of a short row up to the header width; pandas fills the missing
trailing fields with NaN, modelled as the empty string. -/
def padTo (n : Nat) (r : List Str) : List Str :=
  r ++ List.replicate (n - r.length) []

/-- Model of `pd.read_csv(io.StringIO(content), sep=sep)`: empty content
raises `EmptyDataError`; a data row with more fields than the header raises
`ParserError`; otherwise the split lines form the table. -/
def read_csv (sep : Char) (content : Str) : Except PdError STable :=
  match csvLines content with
  | [] => .error .emptyData
  | h :: rest =>
    let header := splitOnC sep h
    let rows := rest.map (splitOnC sep)
    if rows.any (fun r => header.length < r.length) then .error .parserError
    else .ok ⟨header, rows.map (padTo header.length)⟩

/-- Model of `pd.read_csv(..., engine='python', on_bad_lines='warn')`: same
splitting, but a row with more fields than the header is silently dropped
instead of aborting the parse. -/
def read_csv_lenient (sep : Char) (content : Str) : Except PdError STable :=
  match csvLines content with
  | [] => .error .emptyData
  | h :: rest =>
    let header := splitOnC sep h
    let rows := (rest.map (splitOnC sep)).filter (fun r => r.length ≤ header.length)
    .ok ⟨header, rows.map (padTo header.length)⟩

/-- One line of the manual fallback: split on `;` when the line contains a
semicolon, else on `,` when it contains a comma, dropping fields that are
blank after stripping; a line with neither delimiter is discarded entirely. -/
def cleanLine (line : Str) : Option (List Str) :=
  if line.contains ';' then
    some ((splitOnC ';' line).filter (fun p => p.any (fun c => !c.isWhitespace)))
  else if line.contains ',' then
    some ((splitOnC ',' line).filter (fun p => p.any (fun c => !c.isWhitespace)))
  else none

/-- The last-resort manual fallback of `robust_read_csv`: clean every line,
and build a `DataFrame` only when at least two cleaned lines exist and the
first has at least two fields, returning an empty table otherwise.
`pd.DataFrame(data, columns=header)` raises a `ValueError` when the data rows
do not match the header width, modelled here as `valueError`. -/
def manual_fallback (content : Str) : Except PdError STable :=
  let cleaned := (splitOnC '\n' content).filterMap cleanLine
  if 1 < cleaned.length ∧ 1 < (cleaned.headD []).length then
    match cleaned with
    | [] => .ok ⟨[], []⟩
    | h :: data =>
      if data.any (fun r => r.length ≠ h.length) then .error .valueError
      else .ok ⟨h, data⟩
  else .ok ⟨[], []⟩

/-- Model of `robust_read_csv`: the comma parse is returned whenever it does
not raise; only a `ParserError` reaches the semicolon attempt, any other
error propagates to the caller; later attempts catch every error. -/
def robust_read_csv (content : Str) : Except PdError STable :=
  match read_csv ',' content with
  | .ok t => .ok t
  | .error .parserError =>
    (match read_csv ';' content with
     | .ok t => .ok t
     | .error _ =>
       match read_csv_lenient ',' content with
       | .ok t => .ok t
       | .error _ =>
         match read_csv ',' content with
         | .ok t => .ok t
         | .error _ => manual_fallback content)
  | .error e => .error e

/-- The semicolon-delimited two-column input of Scenario E, `a;b` over `1;2`. -/
def semiContent : Str := ['a', ';', 'b', '\n', '1', ';', '2']

/-- Input whose comma parse and semicolon parse both raise `ParserError`
(header `a,b;c`, first data row `1,2,3;4;5`, second data row `6,7`). -/
def mixedContent : Str :=
  ['a', ',', 'b', ';', 'c', '\n',
   '1', ',', '2', ',', '3', ';', '4', ';', '5', '\n',
   '6', ',', '7']

/-! ## Posting cadence — the Overview block of `sel_x_analyzer.py`

Lines 264–289: `total_posts = len(df_main)`; `min_date`/`max_date` range over
the non-null entries of the derived `date` column; when both exist and
`total_posts > 0`, `days = (max_date - min_date).days`,
`weeks = max(days / 7.0, 1)` and `posts_per_week = total_posts / weeks`,
otherwise the metric is displayed as `"N/A"`.  Dates are modelled as day
numbers (`Int`), an unknown date as `none`, and the `"N/A"` outcome as
`none`. -/

/-- Model of the posts-per-week computation of the Overview tab: the input is
the `date` column (one optional day number per row of the main table). -/
def posts_per_week (dates : List (Option Int)) : Option ℚ :=
  let total_posts := dates.length
  let valid := dates.filterMap id
  match valid.min?, valid.max? with
  | some mn, some mx =>
    if 0 < total_posts then
      let days : Int := mx - mn
      let weeks : ℚ := max ((days : ℚ) / 7) 1
      some ((total_posts : ℚ) / weeks)
    else none
  | _, _ => none

/-! ## Percentage difference against the main brand —
`sel_linkedin_analyzer.py`, Compare tab

Lines 189–193: once the main brand is present and at least two brands exist,
`diff = ((bench["avg_total"] - bench.loc[main_brand, "avg_total"]) /
bench.loc[main_brand, "avg_total"]) * 100` is evaluated with no test of the
denominator.  The float division of pandas never raises: dividing a non-zero
numerator by zero yields ±infinity and `0/0` yields NaN, modelled by
`FloatVal`. -/

/-- Result of a pandas float computation: a finite value, a signed infinity,
or NaN. -/
inductive FloatVal
  | val (q : ℚ)
  | inf
  | neginf
  | nan
deriving DecidableEq

/-- IEEE-style division of exact values as pandas performs it on Series:
division by zero produces a signed infinity, `0/0` produces NaN. -/
def fdiv (x y : ℚ) : FloatVal :=
  if y = 0 then (if x = 0 then .nan else if 0 < x then .inf else .neginf)
  else .val (x / y)

/-- Model of the Compare-tab difference for one brand:
`((avg_total_of_brand - avg_total_of_main) / avg_total_of_main) * 100`. -/
def pct_diff (main other : ℚ) : FloatVal :=
  match fdiv (other - main) main with
  | .val q => .val (q * 100)
  | .inf => .inf
  | .neginf => .neginf
  | .nan => .nan

/-! ## Enricher — `enrich` of `sel_x_analyzer.py` and `prep` of
`sel_linkedin_analyzer.py`

A typed table holds `Cell` values.  `Cell.num n` stands for any source cell
that `pd.to_numeric(..., errors="coerce").fillna(0).astype(int)` maps to the
integer `n` (so numeric strings and floats are already represented by their
truncated integer); `Cell.text s` is a cell that numeric coercion sends to
NaN; `Cell.date d` is a cell that `pd.to_datetime(..., errors="coerce")`
parses, carried as an abstract day number; `Cell.empty` is a missing value
(NaN / NaT).  The rendering of a parsed datetime by
`strftime("%Y-%m-%d %H:%M")` is abstracted to the decimal rendering of the
day number: no claim depends on the concrete format. -/

/-- A pandas cell value. -/
inductive Cell
  | num (n : Int)
  | text (s : Str)
  | boolv (b : Bool)
  | date (d : Int)
  | empty
deriving DecidableEq

/-- One cell under `pd.to_numeric(..., errors="coerce").fillna(0).astype(int)`:
numeric cells keep their value, booleans become 0/1, and every cell that
coercion sends to NaN becomes 0. -/
def to_numeric_int : Cell → Int
  | .num n => n
  | .boolv b => if b then 1 else 0
  | _ => 0

/-- Decimal rendering of an integer. -/
def intToStr (i : Int) : Str :=
  if i < 0 then '-' :: Nat.toDigits 10 i.natAbs else Nat.toDigits 10 i.natAbs

/-- One cell under `astype(str)`: text stays itself, numbers and dates render
to digits, booleans to `True`/`False`, and a missing value renders to the
string `nan`. -/
def cellToStr : Cell → Str
  | .num n => intToStr n
  | .text s => s
  | .boolv b => if b then ['T', 'r', 'u', 'e'] else ['F', 'a', 'l', 's', 'e']
  | .date d => intToStr d
  | .empty => ['n', 'a', 'n']

/-- A typed table: a header of column names and one list of cells per row. -/
structure Table where
  header : List Str
  rows : List (List Cell)
deriving DecidableEq

/-- All rows of a table have exactly one cell per header column. -/
def wellFormed (t : Table) : Prop :=
  ∀ r ∈ t.rows, r.length = t.header.length

/-- Well-formedness of a concrete table is checkable by evaluation. -/
instance (t : Table) : Decidable (wellFormed t) :=
  List.decidableBAll _ t.rows

/-- Index of the first column with a given name, the semantics of a pandas
label lookup `df[c]`. -/
def firstIdx (c : Str) : List Str → Option Nat
  | [] => none
  | h :: rest => if h = c then some 0 else (firstIdx c rest).map (· + 1)

/-- The cell of one row under a column name; a missing label reads as a
missing value (the real lookup would raise, and every model function guards
the lookup exactly where the source does). -/
def getCellRow (h : List Str) (r : List Cell) (c : Str) : Cell :=
  match firstIdx c h with
  | some j => r.getD j .empty
  | none => .empty

/-- The `i`-th row of a table. -/
def rowAt (t : Table) (i : Nat) : List Cell := t.rows.getD i []

/-- The cell of table `t` at column name `c` and row index `i`. -/
def cellAt (t : Table) (c : Str) (i : Nat) : Cell :=
  getCellRow t.header (rowAt t i) c

/-- Column assignment `df[c] = <series>`: each row's entry under `c` is
replaced by `f` of the whole current row; a fresh name is appended as a new
column, exactly like pandas. -/
def mapCol (t : Table) (c : Str) (f : List Cell → Cell) : Table :=
  match firstIdx c t.header with
  | some j => ⟨t.header, t.rows.map (fun r => r.set j (f r))⟩
  | none => ⟨t.header ++ [c], t.rows.map (fun r => r ++ [f r])⟩

/-- In-place numeric coercion of one column,
`df[c] = pd.to_numeric(df[c], errors="coerce").fillna(0).astype(int)`. -/
def coerceCol (t : Table) (c : Str) : Table :=
  mapCol t c (fun r => .num (to_numeric_int (getCellRow t.header r c)))

/-- The column roles of the analyzers. -/
inductive Role
  | likes
  | comments
  | reposts
  | views
  | content
  | url
  | timestamp
  | author
deriving DecidableEq

/-- The mutable `map_cols` dictionary: role to column name or `None`. -/
def RoleMap := Role → Option Str

/-- Dictionary update `map_cols[r] = v`. -/
def updMap (m : RoleMap) (r : Role) (v : Option Str) : RoleMap :=
  fun x => if x = r then v else m x

/-- The python-level name of a role, used by `enrich` as the name of a
synthesized default column (`df[col_type] = 0`). -/
def roleName : Role → Str
  | .likes => ['l', 'i', 'k', 'e', 's']
  | .comments => ['c', 'o', 'm', 'm', 'e', 'n', 't', 's']
  | .reposts => ['r', 'e', 'p', 'o', 's', 't', 's']
  | .views => ['v', 'i', 'e', 'w', 's']
  | .content => ['c', 'o', 'n', 't', 'e', 'n', 't']
  | .url => ['u', 'r', 'l']
  | .timestamp => ['t', 'i', 'm', 'e', 's', 't', 'a', 'm', 'p']
  | .author => ['a', 'u', 't', 'h', 'o', 'r']

/-- The four metric roles `["likes", "comments", "reposts", "views"]` in the
order the `enrich` loop processes them. -/
def metricRoles : List Role := [.likes, .comments, .reposts, .views]

/-- The names of the four metric roles, i.e. the names a synthesized default
column can carry. -/
def metricNames : List Str := metricRoles.map roleName

/-- The derived column `total_interactions`. -/
def totalName : Str :=
  ['t', 'o', 't', 'a', 'l', '_', 'i', 'n', 't', 'e', 'r', 'a', 'c', 't', 'i',
   'o', 'n', 's']

/-- The derived column `date_time`. -/
def dateTimeName : Str := ['d', 'a', 't', 'e', '_', 't', 'i', 'm', 'e']

/-- The derived column `date`. -/
def dateName : Str := ['d', 'a', 't', 'e']

/-- The derived column `google_topic`. -/
def googleName : Str := ['g', 'o', 'o', 'g', 'l', 'e', '_', 't', 'o', 'p',
  'i', 'c']

/-- The fixed topic keyword of the topic flag. -/
def googleKw : Str := ['g', 'o', 'o', 'g', 'l', 'e']

/-- One iteration of the metric-default loop of `enrich`: a role mapped to a
present column has that column coerced in place; otherwise a zero column
named after the role is written and `map_cols` is redefined to point the role
at it. -/
def normMetric (tm : Table × RoleMap) (role : Role) : Table × RoleMap :=
  match tm.2 role with
  | some c =>
    if c ∈ tm.1.header then (coerceCol tm.1 c, tm.2)
    else
      (mapCol tm.1 (roleName role) (fun _ => .num 0),
        updMap tm.2 role (some (roleName role)))
  | none =>
    (mapCol tm.1 (roleName role) (fun _ => .num 0),
      updMap tm.2 role (some (roleName role)))

/-- The `interaction_cols` list of `enrich`: the likes and comments columns
when present, and the reposts column when present and the caller has not
disabled reposts.  Views are never listed. -/
def interactionCols (m : RoleMap) (h : List Str) (includeReposts : Bool) :
    List Str :=
  (match m .likes with
   | some c => if c ∈ h then [c] else []
   | none => []) ++
  (match m .comments with
   | some c => if c ∈ h then [c] else []
   | none => []) ++
  (if includeReposts then
    (match m .reposts with
     | some c => if c ∈ h then [c] else []
     | none => [])
   else [])

/-- Row-wise `df[cols].sum(axis=1)`: the sum of the named cells of one row,
each column occurrence counted once per listing. -/
def rowTotal (h : List Str) (cols : List Str) (r : List Cell) : Int :=
  (cols.map (fun c => to_numeric_int (getCellRow h r c))).sum

/-- The `total_interactions` assignment of `enrich`: the row-wise sum over
`interaction_cols`, or a zero column when that list is empty. -/
def addTotal (t : Table) (m : RoleMap) (includeReposts : Bool) : Table :=
  let cols := interactionCols m t.header includeReposts
  if cols.isEmpty then mapCol t totalName (fun _ => .num 0)
  else mapCol t totalName (fun r => .num (rowTotal t.header cols r))

/-- One cell under `pd.to_datetime(..., errors="coerce")`: a parseable
datetime keeps its day number, everything else becomes NaT. -/
def toDatetime : Cell → Cell
  | .date d => .date d
  | _ => .empty

/-- One converted cell under `.dt.strftime("%Y-%m-%d %H:%M")`: NaT renders to
a missing value. -/
def fmtDT : Cell → Cell
  | .date d => .text (intToStr d)
  | _ => .empty

/-- One converted cell under `.dt.date`: NaT stays missing. -/
def dateOnly : Cell → Cell
  | .date d => .date d
  | _ => .empty

/-- The timestamp block of `enrich`: with a mapped, present timestamp column
the column is converted in place and the `date_time` and `date` columns are
derived from it; otherwise `date_time` is the constant string `NA` and `date`
is missing everywhere. -/
def tsStep (t : Table) (m : RoleMap) : Table :=
  match m .timestamp with
  | some ts =>
    if ts ∈ t.header then
      let t1 := mapCol t ts (fun r => toDatetime (getCellRow t.header r ts))
      let t2 := mapCol t1 dateTimeName (fun r => fmtDT (getCellRow t1.header r ts))
      mapCol t2 dateName (fun r => dateOnly (getCellRow t2.header r ts))
    else
      mapCol (mapCol t dateTimeName (fun _ => .text ['N', 'A'])) dateName
        (fun _ => .empty)
  | none =>
    mapCol (mapCol t dateTimeName (fun _ => .text ['N', 'A'])) dateName
      (fun _ => .empty)

/-- The `google_topic` column derived from a content column:
`df[c].astype(str).str.contains("google", case=False, na=False)`. -/
def googleCol (t : Table) (c : Str) : Table :=
  mapCol t googleName
    (fun r => .boolv (containsSub googleKw (lowerStr (cellToStr (getCellRow t.header r c)))))

/-- The topic-detection block of `enrich`: the substring flag when the
content role is mapped to a present column, the constant `False` column
otherwise. -/
def googleStep (t : Table) (m : RoleMap) : Table :=
  match m .content with
  | some c =>
    if c ∈ t.header then googleCol t c
    else mapCol t googleName (fun _ => .boolv false)
  | none => mapCol t googleName (fun _ => .boolv false)

/-- The body of `enrich` past the `df.empty` early return: the metric-default
loop, the `total_interactions` sum, the timestamp block, and the topic flag,
with the possibly redefined `map_cols` visible to the caller. -/
def enrichCore (m : RoleMap) (includeReposts : Bool) (t : Table) :
    Table × RoleMap :=
  let s := metricRoles.foldl normMetric (t, m)
  let t2 := addTotal s.1 s.2 includeReposts
  let t3 := tsStep t2 s.2
  (googleStep t3 s.2, s.2)

/-- Model of `enrich` of `sel_x_analyzer.py`, together with the state of the
shared `map_cols` dictionary after the call. -/
def enrich (m : RoleMap) (includeReposts : Bool) (t : Table) :
    Table × RoleMap :=
  if t.rows.isEmpty ∨ t.header.isEmpty then (t, m) else enrichCore m includeReposts t

/-- The timestamp block of `prep` of `sel_linkedin_analyzer.py`: a truthy
`map_cols["timestamp"]` is indexed without a presence check, so a mapped but
missing column raises (`none`); the unmapped branch fills `date` with NaT and
`date_time` with the string `NA`. -/
def tsStepL (t : Table) (m : RoleMap) : Option Table :=
  match m .timestamp with
  | some ts =>
    if ts ∈ t.header then
      let t1 := mapCol t ts (fun r => toDatetime (getCellRow t.header r ts))
      let t2 := mapCol t1 dateName (fun r => dateOnly (getCellRow t1.header r ts))
      some (mapCol t2 dateTimeName (fun r => fmtDT (getCellRow t2.header r ts)))
    else none
  | none =>
    some (mapCol (mapCol t dateName (fun _ => .empty)) dateTimeName
      (fun _ => .text ['N', 'A']))

/-- Model of `prep` of `sel_linkedin_analyzer.py`.  The three metric columns
are coerced in place and summed into `total_interactions`; the timestamp
block runs; then `google_topic` is derived by indexing the table with
`map_cols["content"]` unconditionally — an unmapped or missing content column
raises a `KeyError`, modelled as `none`. -/
def prep (m : RoleMap) (t : Table) : Option Table :=
  match m .likes, m .comments, m .reposts with
  | some lc, some cc, some rc =>
    if lc ∈ t.header ∧ cc ∈ t.header ∧ rc ∈ t.header then
      let t1 := coerceCol (coerceCol (coerceCol t lc) cc) rc
      let t2 := mapCol t1 totalName (fun r => .num (rowTotal t1.header [lc, cc, rc] r))
      match tsStepL t2 m with
      | some t3 =>
        (match m .content with
         | some cn => if cn ∈ t3.header then some (googleCol t3 cn) else none
         | none => none)
      | none => none
    else none
  | _, _, _ => none

/-! ## Claims about the Enricher -/

/-- A mapping with likes, comments and reposts bound to the one-letter
columns `l`, `c`, `r` and every other role unmapped. -/
def mC1 : RoleMap := fun r =>
  match r with
  | .likes => some ['l']
  | .comments => some ['c']
  | .reposts => some ['r']
  | _ => none

/-- One row whose likes cell coerces to the negative value −5. -/
def tC1neg : Table := ⟨[['l'], ['c'], ['r']], [[.num (-5), .num 0, .num 0]]⟩

/-- One row with likes 5, comments 2, reposts 1 (Scenario A shape). -/
def tC1pos : Table := ⟨[['l'], ['c'], ['r']], [[.num 5, .num 2, .num 1]]⟩

/-- The `mandatory` gate of `sel_linkedin_analyzer.py`: the app halts (with
the message asking to map at least likes, comments, reposts and author)
before `prep` runs whenever `None in [likes, comments, reposts, author]`. -/
def mandatory_missing (m : RoleMap) : Bool :=
  (m .likes).isNone || (m .comments).isNone || (m .reposts).isNone ||
    (m .author).isNone

/-- A mapping that omits the required likes role entirely. -/
def mC5 : RoleMap := fun r =>
  match r with
  | .comments => some ['c']
  | .reposts => some ['r']
  | _ => none

/-- A two-column table for the missing-likes run. -/
def tC5 : Table := ⟨[['c'], ['r']], [[.num 2, .num 3]]⟩

/-- A mapping with the three required roles bound and views unmapped. -/
def mC7 : RoleMap := fun r =>
  match r with
  | .likes => some ['l']
  | .comments => some ['c']
  | .reposts => some ['r']
  | _ => none

/-- A three-column table for the views-unmapped run. -/
def tC7 : Table := ⟨[['l'], ['c'], ['r']], [[.num 1, .num 2, .num 3]]⟩

/-- The Compare-tab aggregation of `sel_x_analyzer.py` (`agg_config`): the
fields derived per brand are `posts`, then `avg_<metric>` for each metric
role whose mapped column is present in the combined table, then `avg_total`
when `total_interactions` is present.  The input `cols` is the column list of
the combined table. -/
def aggFields (m : RoleMap) (cols : List Str) : List Str :=
  [['p', 'o', 's', 't', 's']] ++
  (metricRoles.filterMap (fun ρ =>
    match m ρ with
    | some cn =>
      if cn ∈ cols then some (['a', 'v', 'g', '_'] ++ roleName ρ) else none
    | none => none)) ++
  (if totalName ∈ cols then [['a', 'v', 'g', '_', 't', 'o', 't', 'a', 'l']]
   else [])

/-- The column name `engagement_rate` that the specification attributes to
the Enricher. -/
def engagementName : Str :=
  ['e', 'n', 'g', 'a', 'g', 'e', 'm', 'e', 'n', 't', '_', 'r', 'a', 't', 'e']

/-- A mapping for the engagement-rate run: all four metric roles mapped. -/
def mC2 : RoleMap := fun r =>
  match r with
  | .likes => some ['l']
  | .comments => some ['c']
  | .reposts => some ['r']
  | .views => some ['v']
  | _ => none

/-- A row with views mapped and non-zero (views 50, interactions 5+2+1). -/
def tC2 : Table := ⟨[['l'], ['c'], ['r'], ['v']],
  [[.num 5, .num 2, .num 1, .num 50]]⟩

/-- A mapping with the linkedin-mandatory roles bound and content unmapped. -/
def mC8 : RoleMap := fun r =>
  match r with
  | .likes => some ['l']
  | .comments => some ['c']
  | .reposts => some ['r']
  | .author => some ['a']
  | _ => none

/-- A table for the unmapped-content `prep` run. -/
def tC8 : Table := ⟨[['l'], ['c'], ['r'], ['a']],
  [[.num 1, .num 2, .num 3, .text ['b']]]⟩

/-- A mapping with content bound to the text column `t`. -/
def mC8w : RoleMap := fun r =>
  match r with
  | .likes => some ['l']
  | .comments => some ['c']
  | .reposts => some ['r']
  | .content => some ['t']
  | _ => none

/-- A table whose content cell mentions Google mid-sentence with a capital
G, as in Scenario B. -/
def tC8w : Table := ⟨[['l'], ['c'], ['r'], ['t']],
  [[.num 5, .num 2, .num 1,
    .text ['c', 'h', 'e', 'c', 'k', ' ', 'o', 'u', 't', ' ',
      'G', 'o', 'o', 'g', 'l', 'e']]]⟩

/-! ## Schema Matcher — `detect_column` / `detect_columns` of
`sel_x_analyzer.py`

Every pattern of the source is a literal string except `favou?rite`; a
pattern is modelled as the list of its literal alternatives, so `re.search`
is substring containment of one alternative and `re.fullmatch` is equality
with one alternative. -/

/-- A detection pattern, expanded to its literal alternatives. -/
abbrev Pat := List Str

/-- Model of `re.search(pattern, col)` for the literal patterns in use. -/
def reSearch (p : Pat) (col : Str) : Bool :=
  p.any (fun l => containsSub l col)

/-- Model of `re.fullmatch(pattern, col)` for the literal patterns in use. -/
def reFullmatch (p : Pat) (col : Str) : Bool :=
  p.any (fun l => l == col)

/-- The score of one pattern against one lower-cased column name: 3 for a
full match, 2 for a partial match, 0 otherwise. -/
def scorePat (p : Pat) (col : Str) : Nat :=
  if reFullmatch p col then 3 else if reSearch p col then 2 else 0

/-- The column names paired with their positions, `enumerate(cols)`. -/
def withIdx : List Str → Nat → List (Str × Nat)
  | [], _ => []
  | a :: rest, n => (a, n) :: withIdx rest (n + 1)

/-- The inner loop of `detect_column` for one pattern: walk the lower-cased
columns, replacing the best candidate when a column scores strictly higher,
or ties the score with a longer name. -/
def detectScan (lcols : List Str) (p : Pat) :
    List (Str × Nat) → Option Nat × Nat → Option Nat × Nat
  | [], acc => acc
  | (col, i) :: rest, acc =>
    let score := scorePat p col
    let acc2 :=
      if score = 0 then acc
      else
        let blen :=
          match acc.1 with
          | some j => (lcols.getD j []).length
          | none => 0
        if acc.2 < score ∨ (score = acc.2 ∧ blen < col.length) then
          (some i, score)
        else acc
    detectScan lcols p rest acc2

/-- Model of `detect_column`: an empty table detects nothing; otherwise the
patterns are folded over the lower-cased column names and the best-scoring
column's original name is returned. -/
def detect_column (t : Table) (pats : List Pat) : Option Str :=
  if t.rows.isEmpty ∨ t.header.isEmpty then none
  else
    let lcols := t.header.map lowerStr
    let r := pats.foldl (fun acc p => detectScan lcols p (withIdx lcols 0) acc)
      (none, 0)
    match r.1 with
    | some i => some (t.header.getD i [])
    | none => none

/-- The cells of the named column. -/
def getColCells (t : Table) (c : Str) : List Cell :=
  match firstIdx c t.header with
  | some j => t.rows.map (fun r => r.getD j .empty)
  | none => []

/-- Model of `pd.api.types.is_numeric_dtype` on a decoded column: a column
whose every cell is a parsed number or a missing value carries a numeric
dtype; any text, boolean-object or datetime cell makes it non-numeric
here. -/
def is_numeric_dtype (cells : List Cell) : Bool :=
  cells.all (fun c =>
    match c with
    | .num _ => true
    | .empty => true
    | _ => false)

/-- The first column of numeric dtype, the fallback target of
`detect_columns` for every metric role. -/
def firstNumeric (t : Table) : Option Str :=
  t.header.find? (fun c => is_numeric_dtype (getColCells t c))

/-- The pattern lists of `detect_columns`, per role, in source order. -/
def rolePatterns : Role → List Pat
  | .likes =>
    [[['l', 'i', 'k', 'e']],
     [['f', 'a', 'v', 'o', 'r', 'i', 't', 'e'],
      ['f', 'a', 'v', 'o', 'u', 'r', 'i', 't', 'e']],
     [['r', 'e', 'a', 'c', 't', 'i', 'o', 'n']],
     [['l', 'i', 'k', 'e', 'c', 'o', 'u', 'n', 't']]]
  | .comments =>
    [[['c', 'o', 'm', 'm', 'e', 'n', 't']],
     [['r', 'e', 'p', 'l', 'y']],
     [['c', 'o', 'm', 'm', 'e', 'n', 't', 'c', 'o', 'u', 'n', 't']]]
  | .reposts =>
    [[['r', 'e', 'p', 'o', 's', 't']],
     [['s', 'h', 'a', 'r', 'e']],
     [['r', 'e', 't', 'w', 'e', 'e', 't']],
     [['r', 'e', 'p', 'o', 's', 't', 'c', 'o', 'u', 'n', 't']]]
  | .content =>
    [[['c', 'o', 'n', 't', 'e', 'n', 't']],
     [['t', 'e', 'x', 't']],
     [['m', 'e', 's', 's', 'a', 'g', 'e']],
     [['c', 'a', 'p', 't', 'i', 'o', 'n']],
     [['b', 'o', 'd', 'y']]]
  | .url =>
    [[['u', 'r', 'l']],
     [['l', 'i', 'n', 'k']],
     [['p', 'e', 'r', 'm', 'a', 'l', 'i', 'n', 'k']],
     [['t', 'w', 'e', 'e', 't', 'l', 'i', 'n', 'k']],
     [['p', 'o', 's', 't', 'u', 'r', 'l']]]
  | .timestamp =>
    [[['t', 'i', 'm', 'e', 's', 't', 'a', 'm', 'p']],
     [['d', 'a', 't', 'e']],
     [['t', 'i', 'm', 'e']],
     [['c', 'r', 'e', 'a', 't', 'e', 'd']],
     [['t', 'w', 'e', 'e', 't', 'd', 'a', 't', 'e']],
     [['p', 'o', 's', 't', 't', 'i', 'm', 'e', 's', 't', 'a', 'm', 'p']]]
  | .author =>
    [[['a', 'u', 't', 'h', 'o', 'r']],
     [['p', 'a', 'g', 'e']],
     [['c', 'o', 'm', 'p', 'a', 'n', 'y']],
     [['a', 'c', 'c', 'o', 'u', 'n', 't']],
     [['b', 'r', 'a', 'n', 'd']],
     [['h', 'a', 'n', 'd', 'l', 'e']]]
  | .views =>
    [[['v', 'i', 'e', 'w']],
     [['i', 'm', 'p', 'r', 'e', 's', 's', 'i', 'o', 'n']],
     [['v', 'i', 'e', 'w', 'c', 'o', 'u', 'n', 't']]]

/-- The per-role assembly of `detect_columns`: a detected column is kept, and
an undetected metric role falls back to the first numeric-dtype column. -/
def roleFallback (t : Table) (r : Role) (d : Option Str) : Option Str :=
  match d with
  | some cn => some cn
  | none => if r ∈ metricRoles then firstNumeric t else none

/-- Model of `detect_columns`: an empty table yields the empty mapping;
otherwise every role goes through pattern detection with the numeric
fallback for metric roles. -/
def detect_columns (t : Table) : RoleMap :=
  if t.rows.isEmpty ∨ t.header.isEmpty then fun _ => none
  else fun r => roleFallback t r (detect_column t (rolePatterns r))

/-- A table whose column names match no detection pattern, with the first
column numeric. -/
def tC10 : Table := ⟨[['x', 'q'], ['z', 'z']], [[.num 4, .text ['a']]]⟩

/-! ## Theorems: support lemmas first, then the claim theorems with
their counterexamples and witnesses -/

/-- C3 counterexample: on the semicolon-delimited input `a;b\n1;2` the comma
parse succeeds as a single-column table and `robust_read_csv` returns that
single-column table; it does not fall through to the semicolon parser, whose
result would have been the two-column table shown.  The code falls through
only when the comma parse raises `pd.errors.ParserError`, not when it yields
one column. -/
theorem C3_counterexample :
    robust_read_csv semiContent =
      .ok ⟨[['a', ';', 'b']], [[['1', ';', '2']]]⟩ ∧
    read_csv ';' semiContent = .ok ⟨[['a'], ['b']], [[['1'], ['2']]]⟩ ∧
    (STable.mk [['a', ';', 'b']] [[['1', ';', '2']]]).header.length = 1 := by
  decide

/-- C3 amended: the Decoder returns the result of the first parser attempt
that does not raise, regardless of the shape of that result; in particular a
successful comma parse is always returned as-is. -/
theorem C3_first_nonraising_attempt_wins (content : Str) (t : STable)
    (h : read_csv ',' content = .ok t) :
    robust_read_csv content = .ok t := by
  simp [robust_read_csv, h]

/-- Witness for C3's amended theorem at the Scenario E input. -/
theorem C3_first_nonraising_attempt_wins_witness :
    robust_read_csv semiContent = .ok ⟨[['a', ';', 'b']], [[['1', ';', '2']]]⟩ :=
  C3_first_nonraising_attempt_wins semiContent _ (by decide)

/-- C6 counterexample: on `mixedContent` both the comma and the semicolon
parses raise `ParserError`, and the decoder returns the table of the lenient
python-engine attempt, which has silently dropped the malformed first data
row: the input has three non-blank lines (one header and two data rows) but
the returned table keeps a single data row.  A partial table is returned as a
success; no `DecodeError` exists anywhere in the code. -/
theorem C6_counterexample :
    read_csv ',' mixedContent = .error .parserError ∧
    read_csv ';' mixedContent = .error .parserError ∧
    robust_read_csv mixedContent =
      .ok ⟨[['a'], ['b', ';', 'c']], [[['6'], ['7']]]⟩ ∧
    (csvLines mixedContent).length = 3 ∧
    (STable.mk [['a'], ['b', ';', 'c']] [[['6'], ['7']]]).rows.length = 1 := by
  decide

/-- C6 amended: the decode failure paths of `robust_read_csv` are: a comma
parse failing with anything other than `ParserError` propagates immediately
as that underlying pandas error (no further attempt, no wrapping error type);
after a comma `ParserError` a successful semicolon parse is returned; and
when the semicolon parse also fails, the lenient comma parse always produces
a table — possibly with malformed rows silently dropped — and that table is
returned, so the Latin-1 retry and the manual fallback are unreachable on
this path. -/
theorem C6_no_decode_error_type (content : Str) :
    (∀ e, read_csv ',' content = .error e → e ≠ .parserError →
      robust_read_csv content = .error e) ∧
    (∀ t, read_csv ',' content = .error .parserError →
      read_csv ';' content = .ok t → robust_read_csv content = .ok t) ∧
    (∀ e, read_csv ',' content = .error .parserError →
      read_csv ';' content = .error e →
      ∃ t, read_csv_lenient ',' content = .ok t ∧
        robust_read_csv content = .ok t) := by
  refine ⟨?_, ?_, ?_⟩
  · intro e h hne
    cases e with
    | emptyData => simp [robust_read_csv, h]
    | parserError => exact absurd rfl hne
    | valueError => simp [robust_read_csv, h]
  · intro t h hsemi
    simp [robust_read_csv, h, hsemi]
  · intro e h hsemi
    have hlines : csvLines content ≠ [] := by
      intro hc
      rw [read_csv, hc] at h
      simp at h
    obtain ⟨l, rest, hrest⟩ : ∃ l rest, csvLines content = l :: rest := by
      cases hc : csvLines content with
      | nil => exact absurd hc hlines
      | cons l rest => exact ⟨l, rest, rfl⟩
    have hlen : read_csv_lenient ',' content =
        .ok ⟨splitOnC ',' l,
          ((rest.map (splitOnC ',')).filter
            (fun r => r.length ≤ (splitOnC ',' l).length)).map
            (padTo (splitOnC ',' l).length)⟩ := by
      rw [read_csv_lenient, hrest]
    exact ⟨_, hlen, by simp [robust_read_csv, h, hsemi, hlen]⟩

/-- Witness for C6's amended theorem: empty content makes the comma parse
raise `EmptyDataError`, which propagates out of `robust_read_csv` untouched. -/
theorem C6_no_decode_error_type_witness :
    robust_read_csv [] = .error .emptyData :=
  (C6_no_decode_error_type []).1 .emptyData (by decide) (by decide)

/-- C4 counterexample: three posts whose timestamps span exactly 14 days give
`posts_per_week = 3 / max(14/7, 1) = 1.5`, not the `(3 − 1) / 2 = 1.0` the
claim predicts: the code divides the full row count, not count − 1, by the
span. -/
theorem C4_counterexample :
    posts_per_week [some 0, some 7, some 14] = some (3 / 2) ∧
    (3 / 2 : ℚ) ≠ 1 := by
  constructor
  · show (if 0 < 3 then some ((3 : ℚ) / max ((((14 : Int) - 0 : Int) : ℚ) / 7) 1)
      else none) = some (3 / 2)
    norm_num
  · norm_num

/-- Helper: over a nonempty list whose elements are all equal to `d`, both
`min?` and `max?` are `some d`. -/
theorem min_max_all_eq (l : List Int) (d : Int) (hne : l ≠ [])
    (hall : ∀ x ∈ l, x = d) : l.min? = some d ∧ l.max? = some d := by
  obtain ⟨n, rfl⟩ : ∃ n, l = List.replicate n d :=
    ⟨l.length, List.eq_replicate_of_mem hall⟩
  have hpos : 0 < n := by simpa using List.length_pos.mpr hne
  exact ⟨List.min?_replicate_of_pos (min_self d) hpos,
    List.max?_replicate_of_pos (max_self d) hpos⟩

/-- C4 amended: the code computes cadence as the total row count of the table
(rows without a known timestamp included) divided by `max(span/7, 1)` where
the span ranges over the known timestamps; it reports `"N/A"` exactly when no
row has a known timestamp, and with at least one known timestamp but fewer
than two distinct ones the clamp makes the cadence equal the row count
(never `"unknown"`); three posts spanning exactly 14 days give 1.5 posts per
week, not 1.0. -/
theorem C4_cadence_clamped_row_count (dates : List (Option Int)) :
    (∀ mn mx, (dates.filterMap id).min? = some mn →
      (dates.filterMap id).max? = some mx →
      posts_per_week dates =
        some ((dates.length : ℚ) / max (((mx - mn : Int) : ℚ) / 7) 1)) ∧
    (posts_per_week dates = none ↔ dates.filterMap id = []) ∧
    (∀ d, dates.filterMap id ≠ [] → (∀ x ∈ dates.filterMap id, x = d) →
      posts_per_week dates = some (dates.length : ℚ)) := by
  refine ⟨?_, ?_, ?_⟩
  · intro mn mx hmn hmx
    have hval : dates.filterMap id ≠ [] := by
      intro h
      rw [h] at hmn
      simp [List.min?] at hmn
    have hpos : 0 < dates.length := by
      rcases List.exists_mem_of_ne_nil _ hval with ⟨x, hx⟩
      rcases List.mem_filterMap.mp hx with ⟨o, ho, _⟩
      exact List.length_pos.mpr (by rintro rfl; simp at ho)
    rw [posts_per_week]
    simp only [hmn, hmx, hpos, if_pos]
  · constructor
    · intro h
      by_contra hne
      rcases List.exists_mem_of_ne_nil _ hne with ⟨x, hx⟩
      have hmn0 : (dates.filterMap id).min? ≠ none := by
        rw [ne_eq, List.min?_eq_none_iff]
        exact hne
      have hmx0 : (dates.filterMap id).max? ≠ none := by
        rw [ne_eq, List.max?_eq_none_iff]
        exact hne
      rcases Option.ne_none_iff_exists'.mp hmn0 with ⟨mn, hmn⟩
      rcases Option.ne_none_iff_exists'.mp hmx0 with ⟨mx, hmx⟩
      have hpos : 0 < dates.length := by
        rcases List.mem_filterMap.mp hx with ⟨o, ho, _⟩
        exact List.length_pos.mpr (by rintro rfl; simp at ho)
      rw [posts_per_week] at h
      simp only [hmn, hmx, hpos, if_pos] at h
      exact Option.some_ne_none _ h
    · intro h
      rw [posts_per_week, h]
      simp [List.min?]
  · intro d hne hall
    obtain ⟨hmn, hmx⟩ := min_max_all_eq _ d hne hall
    have hpos : 0 < dates.length := by
      rcases List.exists_mem_of_ne_nil _ hne with ⟨x, hx⟩
      rcases List.mem_filterMap.mp hx with ⟨o, ho, _⟩
      exact List.length_pos.mpr (by rintro rfl; simp at ho)
    rw [posts_per_week]
    simp only [hmn, hmx, hpos, if_pos]
    norm_num

/-- Witness for C4's amended theorem: two rows carrying the same day number
and one row with an unknown date give cadence `3` (the full row count), and
the general formula agrees at that input. -/
theorem C4_cadence_clamped_row_count_witness :
    posts_per_week [some 5, none, some 5] = some ((3 : Nat) : ℚ) :=
  (C4_cadence_clamped_row_count [some 5, none, some 5]).2.2 5 (by decide)
    (by decide)

/-- C9 counterexample: with the primary brand's `avg_total` equal to zero and
a competitor value of 5, the difference is still computed — the division by
zero happens and yields +infinity, not an "undefined" report. -/
theorem C9_counterexample :
    pct_diff 0 5 = FloatVal.inf ∧ FloatVal.inf ≠ FloatVal.val 0 := by
  constructor
  · rw [pct_diff, fdiv]
    norm_num
  · simp

/-- C9 amended: the percentage difference is computed unconditionally (the
code only checks that the main brand is present and that at least two brands
exist, never that the denominator is non-zero); when the primary value is
non-zero it equals `(other − primary) / primary · 100`, and when the primary
value is zero the float division yields +infinity, −infinity, or NaN (for a
competitor value above, below, or equal to zero) — never a finite zero and
never a guarded "undefined". -/
theorem C9_division_by_zero_unguarded (main other : ℚ) :
    (main ≠ 0 → pct_diff main other = .val ((other - main) / main * 100)) ∧
    (main = 0 →
      pct_diff main other =
        (if 0 < other then .inf else if other < 0 then .neginf else .nan)) := by
  constructor
  · intro h
    rw [pct_diff, fdiv]
    simp [h]
  · rintro rfl
    rw [pct_diff, fdiv]
    rcases lt_trichotomy other 0 with hlt | heq | hgt
    · rw [if_pos rfl, if_neg (by simpa using hlt.ne),
        if_neg (by simpa using hlt.not_lt)]
      simp [hlt, hlt.not_lt]
    · simp [heq]
    · rw [if_pos rfl, if_neg (by simpa using hgt.ne'), if_pos (by simpa using hgt)]
      simp [hgt]

/-- Witness for C9's amended theorem at primary 4 and competitor 5: the
difference is the finite value 25%. -/
theorem C9_division_by_zero_unguarded_witness :
    pct_diff 4 5 = .val 25 := by
  have h := (C9_division_by_zero_unguarded 4 5).1 (by norm_num)
  rw [h]
  norm_num

/-! ## Table-operation lemmas -/

theorem firstIdx_lt {c : Str} :
    ∀ {h : List Str} {j : Nat}, firstIdx c h = some j → j < h.length := by
  intro h
  induction h with
  | nil => intro j hj; simp [firstIdx] at hj
  | cons a rest ih =>
    intro j hj
    rw [firstIdx] at hj
    by_cases ha : a = c
    · rw [if_pos ha] at hj
      cases hj
      simp
    · rw [if_neg ha] at hj
      rcases Option.map_eq_some'.mp hj with ⟨j', hj', rfl⟩
      have := ih hj'
      simp only [List.length_cons]
      omega

theorem firstIdx_getD {c : Str} :
    ∀ {h : List Str} {j : Nat}, firstIdx c h = some j → h.getD j [] = c := by
  intro h
  induction h with
  | nil => intro j hj; simp [firstIdx] at hj
  | cons a rest ih =>
    intro j hj
    rw [firstIdx] at hj
    by_cases ha : a = c
    · rw [if_pos ha] at hj
      cases hj
      simp [ha]
    · rw [if_neg ha] at hj
      rcases Option.map_eq_some'.mp hj with ⟨j', hj', rfl⟩
      simpa using ih hj'

theorem firstIdx_isSome_of_mem {c : Str} :
    ∀ {h : List Str}, c ∈ h → ∃ j, firstIdx c h = some j := by
  intro h
  induction h with
  | nil => intro hc; simp at hc
  | cons a rest ih =>
    intro hc
    rw [firstIdx]
    by_cases ha : a = c
    · exact ⟨0, by rw [if_pos ha]⟩
    · have hr : c ∈ rest := by
        rcases List.mem_cons.mp hc with h1 | h1
        · exact absurd h1.symm ha
        · exact h1
      rcases ih hr with ⟨j, hj⟩
      exact ⟨j + 1, by rw [if_neg ha, hj]; rfl⟩

theorem firstIdx_eq_none_of_not_mem {c : Str} :
    ∀ {h : List Str}, c ∉ h → firstIdx c h = none := by
  intro h
  induction h with
  | nil => intro; rfl
  | cons a rest ih =>
    intro hc
    rw [firstIdx, if_neg (by intro ha; exact hc (by simp [ha])),
      ih (by intro hr; exact hc (by simp [hr]))]
    rfl

theorem firstIdx_append_of_mem {c : Str} {e : List Str} :
    ∀ {h : List Str}, c ∈ h → firstIdx c (h ++ e) = firstIdx c h := by
  intro h
  induction h with
  | nil => intro hc; simp at hc
  | cons a rest ih =>
    intro hc
    by_cases ha : a = c
    · simp [firstIdx, ha]
    · have : c ∈ rest := by
        rcases List.mem_cons.mp hc with h1 | h1
        · exact absurd h1.symm ha
        · exact h1
      simp only [List.cons_append, firstIdx, if_neg ha, List.append_eq, ih this]

theorem getD_map_lt {α β : Type} (g : α → β) :
    ∀ (l : List α) (i : Nat), i < l.length → ∀ (d : β) (d' : α),
      (l.map g).getD i d = g (l.getD i d') := by
  intro l
  induction l with
  | nil => intro i hi; simp at hi
  | cons a rest ih =>
    intro i hi d d'
    cases i with
    | zero => rfl
    | succ n =>
      simp only [List.map_cons, List.getD_cons_succ]
      exact ih n (by simpa using hi) d d'

theorem getD_append_lt {α : Type} :
    ∀ (r s : List α) (i : Nat), i < r.length → ∀ (d : α),
      (r ++ s).getD i d = r.getD i d := by
  intro r
  induction r with
  | nil => intro s i hi; simp at hi
  | cons a rest ih =>
    intro s i hi d
    cases i with
    | zero => rfl
    | succ n =>
      simp only [List.cons_append, List.getD_cons_succ]
      exact ih s n (by simpa using hi) d

theorem getD_append_self {α : Type} :
    ∀ (r : List α) (v : α) (d : α), (r ++ [v]).getD r.length d = v := by
  intro r
  induction r with
  | nil => intro v d; rfl
  | cons a rest ih => intro v d; simp [ih v d]

theorem getD_set_self {α : Type} :
    ∀ (r : List α) (j : Nat) (v : α) (d : α), j < r.length →
      (r.set j v).getD j d = v := by
  intro r
  induction r with
  | nil => intro j v d hj; simp at hj
  | cons a rest ih =>
    intro j v d hj
    cases j with
    | zero => rfl
    | succ n => simpa using ih n v d (by simpa using hj)

theorem getD_set_ne {α : Type} :
    ∀ (r : List α) (j j' : Nat) (v : α) (d : α), j ≠ j' →
      (r.set j v).getD j' d = r.getD j' d := by
  intro r
  induction r with
  | nil => intro j j' v d _; simp [List.set]
  | cons a rest ih =>
    intro j j' v d hne
    cases j with
    | zero =>
      cases j' with
      | zero => exact absurd rfl hne
      | succ n' => rfl
    | succ n =>
      cases j' with
      | zero => rfl
      | succ n' => simpa using ih n n' v d (by omega)

theorem mapCol_rows_length (t : Table) (c : Str) (f : List Cell → Cell) :
    (mapCol t c f).rows.length = t.rows.length := by
  rw [mapCol]
  cases firstIdx c t.header <;> simp

theorem mapCol_header_of_mem {t : Table} {c : Str} (f : List Cell → Cell)
    (hc : c ∈ t.header) : (mapCol t c f).header = t.header := by
  rcases firstIdx_isSome_of_mem hc with ⟨j, hj⟩
  rw [mapCol, hj]

theorem mapCol_header_of_not_mem {t : Table} {c : Str} (f : List Cell → Cell)
    (hc : c ∉ t.header) : (mapCol t c f).header = t.header ++ [c] := by
  rw [mapCol, firstIdx_eq_none_of_not_mem hc]

theorem mapCol_header_mono {t : Table} {c : Str} (f : List Cell → Cell)
    {x : Str} (hx : x ∈ t.header) : x ∈ (mapCol t c f).header := by
  by_cases hc : c ∈ t.header
  · rw [mapCol_header_of_mem f hc]; exact hx
  · rw [mapCol_header_of_not_mem f hc]; exact List.mem_append_left _ hx

theorem mapCol_header_sub {t : Table} {c : Str} (f : List Cell → Cell)
    {x : Str} (hx : x ∈ (mapCol t c f).header) : x ∈ t.header ∨ x = c := by
  by_cases hc : c ∈ t.header
  · rw [mapCol_header_of_mem f hc] at hx; exact Or.inl hx
  · rw [mapCol_header_of_not_mem f hc] at hx
    rcases List.mem_append.mp hx with h1 | h1
    · exact Or.inl h1
    · exact Or.inr (by simpa using h1)

theorem mapCol_wf {t : Table} {c : Str} (f : List Cell → Cell)
    (hwf : wellFormed t) : wellFormed (mapCol t c f) := by
  rw [mapCol]
  cases hj : firstIdx c t.header with
  | some j =>
    intro r hr
    rcases List.mem_map.mp hr with ⟨r0, hr0, rfl⟩
    simpa using hwf r0 hr0
  | none =>
    intro r hr
    rcases List.mem_map.mp hr with ⟨r0, hr0, rfl⟩
    simp [hwf r0 hr0]

theorem rowAt_length {t : Table} (hwf : wellFormed t) {i : Nat}
    (hi : i < t.rows.length) : (rowAt t i).length = t.header.length := by
  apply hwf
  rw [rowAt, List.getD_eq_getElem?_getD, List.getElem?_eq_getElem hi]
  exact List.getElem_mem hi

theorem firstIdx_append_self_of_not_mem {c : Str} :
    ∀ {h : List Str}, c ∉ h → firstIdx c (h ++ [c]) = some h.length := by
  intro h
  induction h with
  | nil => intro; simp [firstIdx]
  | cons a rest ih =>
    intro hc
    have ha : a ≠ c := by intro ha; exact hc (by simp [ha])
    have hr : c ∉ rest := by intro hr; exact hc (by simp [hr])
    simp only [List.cons_append, firstIdx, if_neg ha, List.append_eq, ih hr]
    rfl

theorem getCellRow_some {h : List Str} {c : Str} {j : Nat}
    (hj : firstIdx c h = some j) (r : List Cell) :
    getCellRow h r c = r.getD j .empty := by
  rw [getCellRow, hj]

theorem getCellRow_none {h : List Str} {c : Str}
    (hj : firstIdx c h = none) (r : List Cell) :
    getCellRow h r c = .empty := by
  rw [getCellRow, hj]

theorem rowAt_mapCol_some {t : Table} {c : Str} {j : Nat}
    (f : List Cell → Cell) (hj : firstIdx c t.header = some j) {i : Nat}
    (hi : i < t.rows.length) :
    rowAt (mapCol t c f) i = (rowAt t i).set j (f (rowAt t i)) := by
  rw [rowAt, rowAt, mapCol, hj]
  exact getD_map_lt _ _ _ hi _ []

theorem rowAt_mapCol_none {t : Table} {c : Str}
    (f : List Cell → Cell) (hj : firstIdx c t.header = none) {i : Nat}
    (hi : i < t.rows.length) :
    rowAt (mapCol t c f) i = rowAt t i ++ [f (rowAt t i)] := by
  rw [rowAt, rowAt, mapCol, hj]
  exact getD_map_lt _ _ _ hi _ []

theorem mapCol_header_eq_of_some {t : Table} {c : Str} {j : Nat}
    (f : List Cell → Cell) (hj : firstIdx c t.header = some j) :
    (mapCol t c f).header = t.header := by
  rw [mapCol, hj]

theorem cellAt_mapCol_self {t : Table} {c : Str} (f : List Cell → Cell)
    (hwf : wellFormed t) {i : Nat} (hi : i < t.rows.length) :
    cellAt (mapCol t c f) c i = f (rowAt t i) := by
  cases hj : firstIdx c t.header with
  | some j =>
    rw [cellAt, mapCol_header_eq_of_some f hj, getCellRow_some hj,
      rowAt_mapCol_some f hj hi]
    have hjlt : j < (rowAt t i).length := by
      rw [rowAt_length hwf hi]
      exact firstIdx_lt hj
    exact getD_set_self _ _ _ _ hjlt
  | none =>
    have hcn : c ∉ t.header := by
      intro hc
      rcases firstIdx_isSome_of_mem hc with ⟨j, hj2⟩
      rw [hj2] at hj
      cases hj
    rw [cellAt, mapCol_header_of_not_mem f hcn,
      getCellRow_some (firstIdx_append_self_of_not_mem hcn),
      rowAt_mapCol_none f hj hi, ← rowAt_length hwf hi, getD_append_self]

theorem cellAt_mapCol_ne {t : Table} {c c' : Str} (f : List Cell → Cell)
    (hwf : wellFormed t) (hne : c' ≠ c) {i : Nat} (hi : i < t.rows.length) :
    cellAt (mapCol t c f) c' i = cellAt t c' i := by
  cases hj : firstIdx c t.header with
  | some j =>
    rw [cellAt, cellAt, mapCol_header_eq_of_some f hj, rowAt_mapCol_some f hj hi]
    cases hj' : firstIdx c' t.header with
    | some j' =>
      rw [getCellRow_some hj', getCellRow_some hj']
      have hjj : j ≠ j' := by
        intro h
        apply hne
        rw [← firstIdx_getD hj', ← firstIdx_getD hj, h]
      exact getD_set_ne _ _ _ _ _ hjj
    | none => rw [getCellRow_none hj', getCellRow_none hj']
  | none =>
    have hcn : c ∉ t.header := by
      intro hc
      rcases firstIdx_isSome_of_mem hc with ⟨j, hj2⟩
      rw [hj2] at hj
      cases hj
    rw [cellAt, cellAt, mapCol_header_of_not_mem f hcn, rowAt_mapCol_none f hj hi]
    by_cases hc' : c' ∈ t.header
    · rcases firstIdx_isSome_of_mem hc' with ⟨j', hj'⟩
      rw [getCellRow_some (by rw [firstIdx_append_of_mem hc', hj']),
        getCellRow_some hj']
      have hlt : j' < (rowAt t i).length := by
        rw [rowAt_length hwf hi]
        exact firstIdx_lt hj'
      exact getD_append_lt _ _ _ hlt _
    · rw [getCellRow_none (firstIdx_eq_none_of_not_mem (by
        intro hx
        rcases List.mem_append.mp hx with h1 | h1
        · exact hc' h1
        · exact hne (by simpa using h1))),
        getCellRow_none (firstIdx_eq_none_of_not_mem hc')]

/-! ## Lemmas about the metric-default loop of `enrich` -/

theorem normMetric_eq_coerce {tm : Table × RoleMap} {ρ : Role} {c : Str}
    (hc : tm.2 ρ = some c) (hin : c ∈ tm.1.header) :
    normMetric tm ρ = (coerceCol tm.1 c, tm.2) := by
  rw [normMetric, hc]
  show (if c ∈ tm.1.header then (coerceCol tm.1 c, tm.2)
    else (mapCol tm.1 (roleName ρ) (fun _ => Cell.num 0),
      updMap tm.2 ρ (some (roleName ρ)))) = _
  rw [if_pos hin]

theorem normMetric_eq_default_of_missing {tm : Table × RoleMap} {ρ : Role}
    {c : Str} (hc : tm.2 ρ = some c) (hnin : c ∉ tm.1.header) :
    normMetric tm ρ = (mapCol tm.1 (roleName ρ) (fun _ => Cell.num 0),
      updMap tm.2 ρ (some (roleName ρ))) := by
  rw [normMetric, hc]
  show (if c ∈ tm.1.header then (coerceCol tm.1 c, tm.2)
    else (mapCol tm.1 (roleName ρ) (fun _ => Cell.num 0),
      updMap tm.2 ρ (some (roleName ρ)))) = _
  rw [if_neg hnin]

theorem normMetric_eq_default_of_none {tm : Table × RoleMap} {ρ : Role}
    (hc : tm.2 ρ = none) :
    normMetric tm ρ = (mapCol tm.1 (roleName ρ) (fun _ => Cell.num 0),
      updMap tm.2 ρ (some (roleName ρ))) := by
  rw [normMetric, hc]

theorem normMetric_cases (tm : Table × RoleMap) (ρ : Role) :
    (∃ c, tm.2 ρ = some c ∧ c ∈ tm.1.header ∧
      normMetric tm ρ = (coerceCol tm.1 c, tm.2)) ∨
    normMetric tm ρ = (mapCol tm.1 (roleName ρ) (fun _ => Cell.num 0),
      updMap tm.2 ρ (some (roleName ρ))) := by
  cases hc : tm.2 ρ with
  | some c =>
    by_cases hin : c ∈ tm.1.header
    · exact Or.inl ⟨c, rfl, hin, normMetric_eq_coerce hc hin⟩
    · exact Or.inr (normMetric_eq_default_of_missing hc hin)
  | none => exact Or.inr (normMetric_eq_default_of_none hc)

theorem normMetric_rows_length (tm : Table × RoleMap) (ρ : Role) :
    (normMetric tm ρ).1.rows.length = tm.1.rows.length := by
  rcases normMetric_cases tm ρ with ⟨c, _, _, heq⟩ | heq <;> rw [heq]
  · rw [coerceCol]
    exact mapCol_rows_length _ _ _
  · exact mapCol_rows_length _ _ _

theorem normMetric_wf {tm : Table × RoleMap} (ρ : Role)
    (hwf : wellFormed tm.1) : wellFormed (normMetric tm ρ).1 := by
  rcases normMetric_cases tm ρ with ⟨c, _, _, heq⟩ | heq <;> rw [heq] <;>
    exact mapCol_wf _ hwf

theorem normMetric_header_mono {tm : Table × RoleMap} (ρ : Role) {x : Str}
    (hx : x ∈ tm.1.header) : x ∈ (normMetric tm ρ).1.header := by
  rcases normMetric_cases tm ρ with ⟨c, _, _, heq⟩ | heq <;> rw [heq] <;>
    exact mapCol_header_mono _ hx

theorem normMetric_header_sub {tm : Table × RoleMap} (ρ : Role) {x : Str}
    (hx : x ∈ (normMetric tm ρ).1.header) :
    x ∈ tm.1.header ∨ x = roleName ρ := by
  rcases normMetric_cases tm ρ with ⟨c, _, hin, heq⟩ | heq
  · rw [heq] at hx
    rcases mapCol_header_sub _ hx with h1 | h1
    · exact Or.inl h1
    · exact Or.inl (h1 ▸ hin)
  · rw [heq] at hx
    exact mapCol_header_sub _ hx

theorem normMetric_map_other {tm : Table × RoleMap} {ρ ρ' : Role}
    (hne : ρ' ≠ ρ) : (normMetric tm ρ).2 ρ' = tm.2 ρ' := by
  rcases normMetric_cases tm ρ with ⟨c, _, _, heq⟩ | heq <;> rw [heq]
  show (if ρ' = ρ then some (roleName ρ) else tm.2 ρ') = tm.2 ρ'
  rw [if_neg hne]

theorem normMetric_map_self_of_present {tm : Table × RoleMap} {ρ : Role}
    {c : Str} (hc : tm.2 ρ = some c) (hin : c ∈ tm.1.header) :
    (normMetric tm ρ).2 = tm.2 := by
  rw [normMetric_eq_coerce hc hin]

theorem normMetric_cellAt_coerce {tm : Table × RoleMap} {ρ : Role} {c : Str}
    (hc : tm.2 ρ = some c) (hin : c ∈ tm.1.header) (hwf : wellFormed tm.1)
    {i : Nat} (hi : i < tm.1.rows.length) :
    cellAt (normMetric tm ρ).1 c i = .num (to_numeric_int (cellAt tm.1 c i)) := by
  rw [normMetric_eq_coerce hc hin]
  show cellAt (coerceCol tm.1 c) c i = _
  rw [coerceCol, cellAt_mapCol_self _ hwf hi]
  rfl

theorem normMetric_cellAt_keep {tm : Table × RoleMap} {ρ : Role} {d : Str}
    (hname : roleName ρ ≠ d) (hnc : ∀ c, tm.2 ρ = some c → c ≠ d)
    (hwf : wellFormed tm.1) {i : Nat} (hi : i < tm.1.rows.length) :
    cellAt (normMetric tm ρ).1 d i = cellAt tm.1 d i := by
  rcases normMetric_cases tm ρ with ⟨c, hc, _, heq⟩ | heq <;> rw [heq]
  · show cellAt (coerceCol tm.1 c) d i = _
    rw [coerceCol]
    exact cellAt_mapCol_ne _ hwf (fun h => hnc c hc h.symm) hi
  · exact cellAt_mapCol_ne _ hwf (fun h => hname h.symm) hi

theorem normMetric_keeps_num {tm : Table × RoleMap} {ρ : Role} {d : Str}
    {v : Int} (hname : roleName ρ ≠ d) (hwf : wellFormed tm.1) {i : Nat}
    (hi : i < tm.1.rows.length) (hv : cellAt tm.1 d i = .num v) :
    cellAt (normMetric tm ρ).1 d i = .num v := by
  rcases normMetric_cases tm ρ with ⟨c, hc, hin, heq⟩ | heq
  · by_cases hcd : c = d
    · rw [hcd] at hc hin
      rw [normMetric_cellAt_coerce hc hin hwf hi, hv]
      rfl
    · rw [heq]
      show cellAt (coerceCol tm.1 c) d i = _
      rw [coerceCol]
      exact (cellAt_mapCol_ne _ hwf (fun h => hcd h.symm) hi).trans hv
  · rw [heq]
    exact (cellAt_mapCol_ne _ hwf (fun h => hname h.symm) hi).trans hv

theorem normMetric_cell_P (t : Table) {tm : Table × RoleMap} (ρk : Role)
    {c : Str} {i : Nat} (hname : roleName ρk ≠ c) (hwf : wellFormed tm.1)
    (hi : i < tm.1.rows.length)
    (hP : cellAt tm.1 c i = cellAt t c i ∨
      cellAt tm.1 c i = .num (to_numeric_int (cellAt t c i))) :
    cellAt (normMetric tm ρk).1 c i = cellAt t c i ∨
      cellAt (normMetric tm ρk).1 c i = .num (to_numeric_int (cellAt t c i)) := by
  rcases normMetric_cases tm ρk with ⟨c', hc', hin', heq⟩ | heq
  · by_cases hcc : c' = c
    · rw [hcc] at hc' hin'
      rw [normMetric_cellAt_coerce hc' hin' hwf hi]
      rcases hP with h1 | h1
      · exact Or.inr (by rw [h1])
      · exact Or.inr (by rw [h1]; rfl)
    · rw [heq]
      show cellAt (coerceCol tm.1 c') c i = cellAt t c i ∨ _
      rw [coerceCol, cellAt_mapCol_ne _ hwf (fun h => hcc h.symm) hi]
      exact hP
  · rw [heq, cellAt_mapCol_ne _ hwf (fun h => hname h.symm) hi]
    exact hP

theorem normMetric_cell_own (t : Table) {tm : Table × RoleMap} {ρ : Role}
    {c : Str} {i : Nat} (hc : tm.2 ρ = some c) (hin : c ∈ tm.1.header)
    (hwf : wellFormed tm.1) (hi : i < tm.1.rows.length)
    (hP : cellAt tm.1 c i = cellAt t c i ∨
      cellAt tm.1 c i = .num (to_numeric_int (cellAt t c i))) :
    cellAt (normMetric tm ρ).1 c i = .num (to_numeric_int (cellAt t c i)) := by
  rw [normMetric_cellAt_coerce hc hin hwf hi]
  rcases hP with h1 | h1
  · rw [h1]
  · rw [h1]
    rfl

/-! ## Lemmas about the whole metric loop (fold over the four roles) -/

theorem foldl_metricRoles (tm : Table × RoleMap) :
    metricRoles.foldl normMetric tm =
      normMetric (normMetric (normMetric (normMetric tm .likes) .comments)
        .reposts) .views := rfl

theorem fold_rows_length (tm : Table × RoleMap) :
    (metricRoles.foldl normMetric tm).1.rows.length = tm.1.rows.length := by
  rw [foldl_metricRoles, normMetric_rows_length, normMetric_rows_length,
    normMetric_rows_length, normMetric_rows_length]

theorem fold_wf {tm : Table × RoleMap} (hwf : wellFormed tm.1) :
    wellFormed (metricRoles.foldl normMetric tm).1 := by
  rw [foldl_metricRoles]
  exact normMetric_wf _ (normMetric_wf _ (normMetric_wf _ (normMetric_wf _ hwf)))

theorem fold_header_mono {tm : Table × RoleMap} {x : Str}
    (hx : x ∈ tm.1.header) : x ∈ (metricRoles.foldl normMetric tm).1.header := by
  rw [foldl_metricRoles]
  exact normMetric_header_mono _ (normMetric_header_mono _
    (normMetric_header_mono _ (normMetric_header_mono _ hx)))

theorem fold_header_sub {tm : Table × RoleMap} {x : Str}
    (hx : x ∈ (metricRoles.foldl normMetric tm).1.header) :
    x ∈ tm.1.header ∨ x ∈ metricNames := by
  rw [foldl_metricRoles] at hx
  rcases normMetric_header_sub _ hx with h4 | h4
  · rcases normMetric_header_sub _ h4 with h3 | h3
    · rcases normMetric_header_sub _ h3 with h2 | h2
      · rcases normMetric_header_sub _ h2 with h1 | h1
        · exact Or.inl h1
        · exact Or.inr (by rw [h1]; decide)
      · exact Or.inr (by rw [h2]; decide)
    · exact Or.inr (by rw [h3]; decide)
  · exact Or.inr (by rw [h4]; decide)

theorem fold_map_nonmetric {tm : Table × RoleMap} {ρ : Role}
    (hρ : ρ ∉ metricRoles) :
    (metricRoles.foldl normMetric tm).2 ρ = tm.2 ρ := by
  have h1 : ρ ≠ .likes := fun h => hρ (by rw [h]; decide)
  have h2 : ρ ≠ .comments := fun h => hρ (by rw [h]; decide)
  have h3 : ρ ≠ .reposts := fun h => hρ (by rw [h]; decide)
  have h4 : ρ ≠ .views := fun h => hρ (by rw [h]; decide)
  rw [foldl_metricRoles, normMetric_map_other h4, normMetric_map_other h3,
    normMetric_map_other h2, normMetric_map_other h1]

theorem fold_map_of_present {tm : Table × RoleMap} {ρ : Role} {c : Str}
    (hρ : ρ ∈ metricRoles) (hc : tm.2 ρ = some c) (hin : c ∈ tm.1.header) :
    (metricRoles.foldl normMetric tm).2 ρ = some c := by
  rw [foldl_metricRoles]
  have hρ4 : ρ = .likes ∨ ρ = .comments ∨ ρ = .reposts ∨ ρ = .views := by
    rcases List.mem_cons.mp hρ with h | h
    · exact Or.inl h
    rcases List.mem_cons.mp h with h' | h'
    · exact Or.inr (Or.inl h')
    rcases List.mem_cons.mp h' with h'' | h''
    · exact Or.inr (Or.inr (Or.inl h''))
    rcases List.mem_cons.mp h'' with h3 | h3
    · exact Or.inr (Or.inr (Or.inr h3))
    · simp at h3
  rcases hρ4 with rfl | rfl | rfl | rfl
  · have e1 : (normMetric tm .likes).2 = tm.2 := normMetric_map_self_of_present hc hin
    rw [normMetric_map_other (by decide), normMetric_map_other (by decide),
      normMetric_map_other (by decide), e1, hc]
  · have e1 : (normMetric tm .likes).2 .comments = some c :=
      (normMetric_map_other (by decide)).trans hc
    have e2 : (normMetric (normMetric tm .likes) .comments).2 =
        (normMetric tm .likes).2 :=
      normMetric_map_self_of_present e1 (normMetric_header_mono _ hin)
    rw [normMetric_map_other (by decide), normMetric_map_other (by decide),
      e2, e1]
  · have e1 : (normMetric (normMetric tm .likes) .comments).2 .reposts = some c := by
      rw [normMetric_map_other (by decide), normMetric_map_other (by decide), hc]
    have e2 : (normMetric (normMetric (normMetric tm .likes) .comments) .reposts).2 =
        (normMetric (normMetric tm .likes) .comments).2 :=
      normMetric_map_self_of_present e1
        (normMetric_header_mono _ (normMetric_header_mono _ hin))
    rw [normMetric_map_other (by decide), e2, e1]
  · have e1 : (normMetric (normMetric (normMetric tm .likes) .comments)
        .reposts).2 .views = some c := by
      rw [normMetric_map_other (by decide), normMetric_map_other (by decide),
        normMetric_map_other (by decide), hc]
    have e2 : (normMetric (normMetric (normMetric (normMetric tm .likes)
        .comments) .reposts) .views).2 =
        (normMetric (normMetric (normMetric tm .likes) .comments) .reposts).2 :=
      normMetric_map_self_of_present e1 (normMetric_header_mono _
        (normMetric_header_mono _ (normMetric_header_mono _ hin)))
    rw [e2, e1]

theorem fold_cellAt_coerced {t : Table} {m : RoleMap} (hwf : wellFormed t)
    {ρ : Role} (hρ : ρ ∈ metricRoles) {c : Str} (hc : m ρ = some c)
    (hin : c ∈ t.header) (hfreshc : c ∉ metricNames) {i : Nat}
    (hi : i < t.rows.length) :
    cellAt (metricRoles.foldl normMetric (t, m)).1 c i =
      .num (to_numeric_int (cellAt t c i)) := by
  have hnl : roleName .likes ≠ c := fun h => hfreshc (by rw [← h]; decide)
  have hnc : roleName .comments ≠ c := fun h => hfreshc (by rw [← h]; decide)
  have hnr : roleName .reposts ≠ c := fun h => hfreshc (by rw [← h]; decide)
  have hnv : roleName .views ≠ c := fun h => hfreshc (by rw [← h]; decide)
  have hρ4 : ρ = .likes ∨ ρ = .comments ∨ ρ = .reposts ∨ ρ = .views := by
    rcases List.mem_cons.mp hρ with h | h
    · exact Or.inl h
    rcases List.mem_cons.mp h with h' | h'
    · exact Or.inr (Or.inl h')
    rcases List.mem_cons.mp h' with h'' | h''
    · exact Or.inr (Or.inr (Or.inl h''))
    rcases List.mem_cons.mp h'' with h3 | h3
    · exact Or.inr (Or.inr (Or.inr h3))
    · simp at h3
  rw [foldl_metricRoles]
  have hw1 : wellFormed (normMetric (t, m) .likes).1 := normMetric_wf _ hwf
  have hw2 : wellFormed (normMetric (normMetric (t, m) .likes) .comments).1 :=
    normMetric_wf _ hw1
  have hw3 : wellFormed (normMetric (normMetric (normMetric (t, m) .likes)
      .comments) .reposts).1 := normMetric_wf _ hw2
  have hi1 : i < (normMetric (t, m) .likes).1.rows.length := by
    rw [normMetric_rows_length]; exact hi
  have hi2 : i < (normMetric (normMetric (t, m) .likes) .comments).1.rows.length := by
    rw [normMetric_rows_length, normMetric_rows_length]; exact hi
  have hi3 : i < (normMetric (normMetric (normMetric (t, m) .likes) .comments)
      .reposts).1.rows.length := by
    rw [normMetric_rows_length, normMetric_rows_length, normMetric_rows_length]
    exact hi
  rcases hρ4 with rfl | rfl | rfl | rfl
  · have o1 : cellAt (normMetric (t, m) .likes).1 c i =
        .num (to_numeric_int (cellAt t c i)) :=
      @normMetric_cell_own t (t, m) .likes c i hc hin hwf hi (Or.inl rfl)
    exact normMetric_keeps_num hnv hw3 hi3
      (normMetric_keeps_num hnr hw2 hi2 (normMetric_keeps_num hnc hw1 hi1 o1))
  · have p1 := @normMetric_cell_P t (t, m) .likes c i hnl hwf hi (Or.inl rfl)
    have o2 : cellAt (normMetric (normMetric (t, m) .likes) .comments).1 c i =
        .num (to_numeric_int (cellAt t c i)) :=
      normMetric_cell_own t ((normMetric_map_other (by decide)).trans hc)
        (normMetric_header_mono _ hin) hw1 hi1 p1
    exact normMetric_keeps_num hnv hw3 hi3 (normMetric_keeps_num hnr hw2 hi2 o2)
  · have p1 := @normMetric_cell_P t (t, m) .likes c i hnl hwf hi (Or.inl rfl)
    have p2 := normMetric_cell_P t .comments hnc hw1 hi1 p1
    have o3 : cellAt (normMetric (normMetric (normMetric (t, m) .likes)
        .comments) .reposts).1 c i = .num (to_numeric_int (cellAt t c i)) := by
      refine normMetric_cell_own t ?_ (normMetric_header_mono _
        (normMetric_header_mono _ hin)) hw2 hi2 p2
      rw [normMetric_map_other (by decide), normMetric_map_other (by decide)]
      exact hc
    exact normMetric_keeps_num hnv hw3 hi3 o3
  · have p1 := @normMetric_cell_P t (t, m) .likes c i hnl hwf hi (Or.inl rfl)
    have p2 := normMetric_cell_P t .comments hnc hw1 hi1 p1
    have p3 := normMetric_cell_P t .reposts hnr hw2 hi2 p2
    refine normMetric_cell_own t ?_ (normMetric_header_mono _
      (normMetric_header_mono _ (normMetric_header_mono _ hin))) hw3 hi3 p3
    rw [normMetric_map_other (by decide), normMetric_map_other (by decide),
      normMetric_map_other (by decide)]
    exact hc

/-! ## Lemmas about the total, timestamp and topic steps -/

theorem addTotal_rows_length (t : Table) (m : RoleMap) (ir : Bool) :
    (addTotal t m ir).rows.length = t.rows.length := by
  rw [addTotal]
  by_cases h : (interactionCols m t.header ir).isEmpty
  · rw [if_pos h]
    exact mapCol_rows_length _ _ _
  · rw [if_neg h]
    exact mapCol_rows_length _ _ _

theorem addTotal_wf {t : Table} (m : RoleMap) (ir : Bool)
    (hwf : wellFormed t) : wellFormed (addTotal t m ir) := by
  rw [addTotal]
  by_cases h : (interactionCols m t.header ir).isEmpty
  · rw [if_pos h]
    exact mapCol_wf _ hwf
  · rw [if_neg h]
    exact mapCol_wf _ hwf

theorem addTotal_header_sub {t : Table} {m : RoleMap} {ir : Bool} {x : Str}
    (hx : x ∈ (addTotal t m ir).header) : x ∈ t.header ∨ x = totalName := by
  rw [addTotal] at hx
  by_cases h : (interactionCols m t.header ir).isEmpty
  · rw [if_pos h] at hx
    exact mapCol_header_sub _ hx
  · rw [if_neg h] at hx
    exact mapCol_header_sub _ hx

theorem cellAt_addTotal_ne {t : Table} {m : RoleMap} {ir : Bool} {d : Str}
    (hwf : wellFormed t) (hne : d ≠ totalName) {i : Nat}
    (hi : i < t.rows.length) : cellAt (addTotal t m ir) d i = cellAt t d i := by
  rw [addTotal]
  by_cases h : (interactionCols m t.header ir).isEmpty
  · rw [if_pos h]
    exact cellAt_mapCol_ne _ hwf hne hi
  · rw [if_neg h]
    exact cellAt_mapCol_ne _ hwf hne hi

theorem addTotal_cellAt_total {t : Table} {m : RoleMap} {ir : Bool}
    (hwf : wellFormed t) {i : Nat} (hi : i < t.rows.length)
    (hne : ¬(interactionCols m t.header ir).isEmpty) :
    cellAt (addTotal t m ir) totalName i =
      .num (rowTotal t.header (interactionCols m t.header ir) (rowAt t i)) := by
  rw [addTotal, if_neg hne]
  rw [cellAt_mapCol_self _ hwf hi]

theorem tsStep_rows_length (t : Table) (m : RoleMap) :
    (tsStep t m).rows.length = t.rows.length := by
  rw [tsStep]
  cases m .timestamp with
  | some ts =>
    by_cases hin : ts ∈ t.header
    · simp only [if_pos hin, mapCol_rows_length]
    · simp only [if_neg hin, mapCol_rows_length]
  | none => simp only [mapCol_rows_length]

theorem tsStep_wf {t : Table} (m : RoleMap) (hwf : wellFormed t) :
    wellFormed (tsStep t m) := by
  rw [tsStep]
  cases m .timestamp with
  | some ts =>
    by_cases hin : ts ∈ t.header
    · simp only [if_pos hin]
      exact mapCol_wf _ (mapCol_wf _ (mapCol_wf _ hwf))
    · simp only [if_neg hin]
      exact mapCol_wf _ (mapCol_wf _ hwf)
  | none => exact mapCol_wf _ (mapCol_wf _ hwf)

theorem tsStep_header_sub {t : Table} {m : RoleMap} {x : Str}
    (hx : x ∈ (tsStep t m).header) :
    x ∈ t.header ∨ x = dateTimeName ∨ x = dateName := by
  rw [tsStep] at hx
  cases hm : m .timestamp with
  | some ts =>
    rw [hm] at hx
    by_cases hin : ts ∈ t.header
    · simp only [if_pos hin] at hx
      rcases mapCol_header_sub _ hx with h1 | h1
      · rcases mapCol_header_sub _ h1 with h2 | h2
        · rcases mapCol_header_sub _ h2 with h3 | h3
          · exact Or.inl h3
          · exact Or.inl (h3 ▸ hin)
        · exact Or.inr (Or.inl h2)
      · exact Or.inr (Or.inr h1)
    · simp only [if_neg hin] at hx
      rcases mapCol_header_sub _ hx with h1 | h1
      · rcases mapCol_header_sub _ h1 with h2 | h2
        · exact Or.inl h2
        · exact Or.inr (Or.inl h2)
      · exact Or.inr (Or.inr h1)
  | none =>
    rw [hm] at hx
    simp only at hx
    rcases mapCol_header_sub _ hx with h1 | h1
    · rcases mapCol_header_sub _ h1 with h2 | h2
      · exact Or.inl h2
      · exact Or.inr (Or.inl h2)
    · exact Or.inr (Or.inr h1)

theorem cellAt_tsStep_ne {t : Table} {m : RoleMap} {d : Str}
    (hwf : wellFormed t) (hts : ∀ ts, m .timestamp = some ts → ts ≠ d)
    (h1 : d ≠ dateTimeName) (h2 : d ≠ dateName) {i : Nat}
    (hi : i < t.rows.length) : cellAt (tsStep t m) d i = cellAt t d i := by
  rw [tsStep]
  cases hm : m .timestamp with
  | some ts =>
    by_cases hin : ts ∈ t.header
    · simp only [if_pos hin]
      refine (cellAt_mapCol_ne _ (mapCol_wf _ (mapCol_wf _ hwf)) h2 ?_).trans
        ((cellAt_mapCol_ne _ (mapCol_wf _ hwf) h1 ?_).trans
          (cellAt_mapCol_ne _ hwf (Ne.symm (hts ts hm)) hi))
      · rw [mapCol_rows_length, mapCol_rows_length]
        exact hi
      · rw [mapCol_rows_length]
        exact hi
    · simp only [if_neg hin]
      refine (cellAt_mapCol_ne _ (mapCol_wf _ hwf) h2 ?_).trans
        (cellAt_mapCol_ne _ hwf h1 hi)
      rw [mapCol_rows_length]
      exact hi
  | none =>
    refine (cellAt_mapCol_ne _ (mapCol_wf _ hwf) h2 ?_).trans
      (cellAt_mapCol_ne _ hwf h1 hi)
    rw [mapCol_rows_length]
    exact hi

theorem googleStep_eq_mapped {t : Table} {m : RoleMap} {c : Str}
    (hc : m .content = some c) (hin : c ∈ t.header) :
    googleStep t m = googleCol t c := by
  rw [googleStep, hc]
  show (if c ∈ t.header then googleCol t c
    else mapCol t googleName (fun _ => Cell.boolv false)) = _
  rw [if_pos hin]

theorem googleStep_eq_flag_false {t : Table} {m : RoleMap}
    (hc : m .content = none ∨ ∃ c, m .content = some c ∧ c ∉ t.header) :
    googleStep t m = mapCol t googleName (fun _ => Cell.boolv false) := by
  rcases hc with hc | ⟨c, hc, hnin⟩
  · rw [googleStep, hc]
  · rw [googleStep, hc]
    show (if c ∈ t.header then googleCol t c
      else mapCol t googleName (fun _ => Cell.boolv false)) = _
    rw [if_neg hnin]

theorem googleStep_rows_length (t : Table) (m : RoleMap) :
    (googleStep t m).rows.length = t.rows.length := by
  rw [googleStep]
  cases m .content with
  | some c =>
    by_cases hin : c ∈ t.header
    · simp only [if_pos hin, googleCol]
      exact mapCol_rows_length _ _ _
    · simp only [if_neg hin]
      exact mapCol_rows_length _ _ _
  | none => exact mapCol_rows_length _ _ _

theorem googleStep_header_sub {t : Table} {m : RoleMap} {x : Str}
    (hx : x ∈ (googleStep t m).header) : x ∈ t.header ∨ x = googleName := by
  rw [googleStep] at hx
  cases hm : m .content with
  | some c =>
    rw [hm] at hx
    by_cases hin : c ∈ t.header
    · simp only [if_pos hin, googleCol] at hx
      exact mapCol_header_sub _ hx
    · simp only [if_neg hin] at hx
      exact mapCol_header_sub _ hx
  | none =>
    rw [hm] at hx
    simp only at hx
    exact mapCol_header_sub _ hx

theorem cellAt_googleStep_ne {t : Table} {m : RoleMap} {d : Str}
    (hwf : wellFormed t) (hne : d ≠ googleName) {i : Nat}
    (hi : i < t.rows.length) : cellAt (googleStep t m) d i = cellAt t d i := by
  rw [googleStep]
  cases m .content with
  | some c =>
    by_cases hin : c ∈ t.header
    · simp only [if_pos hin, googleCol]
      exact cellAt_mapCol_ne _ hwf hne hi
    · simp only [if_neg hin]
      exact cellAt_mapCol_ne _ hwf hne hi
  | none => exact cellAt_mapCol_ne _ hwf hne hi

theorem googleCol_cellAt {t : Table} {c : Str} (hwf : wellFormed t) {i : Nat}
    (hi : i < t.rows.length) :
    cellAt (googleCol t c) googleName i =
      .boolv (containsSub googleKw (lowerStr (cellToStr (cellAt t c i)))) := by
  rw [googleCol, cellAt_mapCol_self _ hwf hi]
  rfl

/-! ## Composite lemmas about `enrich` -/

theorem enrich_eq_core {m : RoleMap} {ir : Bool} {t : Table}
    (h : ¬(t.rows.isEmpty ∨ t.header.isEmpty)) :
    enrich m ir t = enrichCore m ir t := by
  rw [enrich, if_neg h]

theorem enrichCore_map (m : RoleMap) (ir : Bool) (t : Table) :
    (enrichCore m ir t).2 = (metricRoles.foldl normMetric (t, m)).2 := rfl

theorem enrich_rows_length (m : RoleMap) (ir : Bool) (t : Table) :
    (enrich m ir t).1.rows.length = t.rows.length := by
  rw [enrich]
  by_cases h : t.rows.isEmpty ∨ t.header.isEmpty
  · rw [if_pos h]
  · rw [if_neg h]
    show (googleStep (tsStep (addTotal (metricRoles.foldl normMetric (t, m)).1
      (metricRoles.foldl normMetric (t, m)).2 ir)
      (metricRoles.foldl normMetric (t, m)).2)
      (metricRoles.foldl normMetric (t, m)).2).rows.length = t.rows.length
    rw [googleStep_rows_length, tsStep_rows_length, addTotal_rows_length,
      fold_rows_length]

theorem enrich_header_sub {m : RoleMap} {ir : Bool} {t : Table} {x : Str}
    (hx : x ∈ (enrich m ir t).1.header) :
    x ∈ t.header ∨ x ∈ metricNames ∨ x = totalName ∨ x = dateTimeName ∨
      x = dateName ∨ x = googleName := by
  rw [enrich] at hx
  by_cases h : t.rows.isEmpty ∨ t.header.isEmpty
  · rw [if_pos h] at hx
    exact Or.inl hx
  · rw [if_neg h] at hx
    have hx' : x ∈ (googleStep (tsStep (addTotal
        (metricRoles.foldl normMetric (t, m)).1
        (metricRoles.foldl normMetric (t, m)).2 ir)
        (metricRoles.foldl normMetric (t, m)).2)
        (metricRoles.foldl normMetric (t, m)).2).header := hx
    rcases googleStep_header_sub hx' with h1 | h1
    · rcases tsStep_header_sub h1 with h2 | h2 | h2
      · rcases addTotal_header_sub h2 with h3 | h3
        · rcases fold_header_sub h3 with h4 | h4
          · exact Or.inl h4
          · exact Or.inr (Or.inl h4)
        · exact Or.inr (Or.inr (Or.inl h3))
      · exact Or.inr (Or.inr (Or.inr (Or.inl h2)))
      · exact Or.inr (Or.inr (Or.inr (Or.inr (Or.inl h2))))
    · exact Or.inr (Or.inr (Or.inr (Or.inr (Or.inr h1))))

theorem addTotal_header_mono {t : Table} (m : RoleMap) (ir : Bool) {x : Str}
    (hx : x ∈ t.header) : x ∈ (addTotal t m ir).header := by
  rw [addTotal]
  by_cases h : (interactionCols m t.header ir).isEmpty
  · rw [if_pos h]
    exact mapCol_header_mono _ hx
  · rw [if_neg h]
    exact mapCol_header_mono _ hx

theorem tsStep_header_mono {t : Table} (m : RoleMap) {x : Str}
    (hx : x ∈ t.header) : x ∈ (tsStep t m).header := by
  rw [tsStep]
  cases m .timestamp with
  | some ts =>
    by_cases hin : ts ∈ t.header
    · simp only [if_pos hin]
      exact mapCol_header_mono _ (mapCol_header_mono _ (mapCol_header_mono _ hx))
    · simp only [if_neg hin]
      exact mapCol_header_mono _ (mapCol_header_mono _ hx)
  | none => exact mapCol_header_mono _ (mapCol_header_mono _ hx)

theorem fold_cellAt_keep {t : Table} {m : RoleMap} (hwf : wellFormed t)
    {d : Str} (hnc : ∀ ρ ∈ metricRoles, m ρ ≠ some d) (hdf : d ∉ metricNames)
    {i : Nat} (hi : i < t.rows.length) :
    cellAt (metricRoles.foldl normMetric (t, m)).1 d i = cellAt t d i := by
  have hnl : roleName .likes ≠ d := fun h => hdf (by rw [← h]; decide)
  have hnc2 : roleName .comments ≠ d := fun h => hdf (by rw [← h]; decide)
  have hnr : roleName .reposts ≠ d := fun h => hdf (by rw [← h]; decide)
  have hnv : roleName .views ≠ d := fun h => hdf (by rw [← h]; decide)
  rw [foldl_metricRoles]
  have hw1 : wellFormed (normMetric (t, m) .likes).1 := normMetric_wf _ hwf
  have hw2 : wellFormed (normMetric (normMetric (t, m) .likes) .comments).1 :=
    normMetric_wf _ hw1
  have hw3 : wellFormed (normMetric (normMetric (normMetric (t, m) .likes)
      .comments) .reposts).1 := normMetric_wf _ hw2
  have hi1 : i < (normMetric (t, m) .likes).1.rows.length := by
    rw [normMetric_rows_length]; exact hi
  have hi2 : i < (normMetric (normMetric (t, m) .likes) .comments).1.rows.length := by
    rw [normMetric_rows_length, normMetric_rows_length]; exact hi
  have hi3 : i < (normMetric (normMetric (normMetric (t, m) .likes) .comments)
      .reposts).1.rows.length := by
    rw [normMetric_rows_length, normMetric_rows_length, normMetric_rows_length]
    exact hi
  have mv : (normMetric (normMetric (normMetric (t, m) .likes) .comments)
      .reposts).2 .views = m .views :=
    (normMetric_map_other (by decide)).trans
      ((normMetric_map_other (by decide)).trans (normMetric_map_other (by decide)))
  have mr : (normMetric (normMetric (t, m) .likes) .comments).2 .reposts =
      m .reposts :=
    (normMetric_map_other (by decide)).trans (normMetric_map_other (by decide))
  have mc : (normMetric (t, m) .likes).2 .comments = m .comments :=
    normMetric_map_other (by decide)
  rw [normMetric_cellAt_keep hnv (fun c hc hcd => hnc .views (by decide)
      (by rw [← hcd]; exact mv.symm.trans hc)) hw3 hi3,
    normMetric_cellAt_keep hnr (fun c hc hcd => hnc .reposts (by decide)
      (by rw [← hcd]; exact mr.symm.trans hc)) hw2 hi2,
    normMetric_cellAt_keep hnc2 (fun c hc hcd => hnc .comments (by decide)
      (by rw [← hcd]; exact mc.symm.trans hc)) hw1 hi1,
    normMetric_cellAt_keep hnl (fun c hc hcd => hnc .likes (by decide)
      (by rw [← hcd]; exact hc)) hwf hi]

theorem enrich_total_eq {m : RoleMap} {ir : Bool} {t : Table} {lc cc rc : Str}
    (hwf : wellFormed t)
    (hl : m .likes = some lc) (hlin : lc ∈ t.header)
    (hc : m .comments = some cc) (hcin : cc ∈ t.header)
    (hr : m .reposts = some rc) (hrin : rc ∈ t.header)
    (hlf : lc ∉ metricNames) (hcf : cc ∉ metricNames) (hrf : rc ∉ metricNames)
    (hts : m .timestamp ≠ some totalName)
    {i : Nat} (hi : i < t.rows.length) :
    cellAt (enrich m ir t).1 totalName i =
      .num (to_numeric_int (cellAt t lc i) + to_numeric_int (cellAt t cc i) +
        (if ir then to_numeric_int (cellAt t rc i) else 0)) := by
  have hg : ¬(t.rows.isEmpty ∨ t.header.isEmpty) := by
    rintro (h | h)
    · rw [List.isEmpty_iff] at h
      rw [h] at hi
      simp at hi
    · rw [List.isEmpty_iff] at h
      rw [h] at hlin
      simp at hlin
  rw [enrich_eq_core hg]
  set F := metricRoles.foldl normMetric (t, m) with hF
  show cellAt (googleStep (tsStep (addTotal F.1 F.2 ir) F.2) F.2) totalName i = _
  have hw1 : wellFormed F.1 := fold_wf hwf
  have hlen1 : F.1.rows.length = t.rows.length := fold_rows_length _
  have hi1 : i < F.1.rows.length := by rw [hlen1]; exact hi
  have hml : F.2 .likes = some lc := fold_map_of_present (by decide) hl hlin
  have hmc : F.2 .comments = some cc := fold_map_of_present (by decide) hc hcin
  have hmr : F.2 .reposts = some rc := fold_map_of_present (by decide) hr hrin
  have hlin1 : lc ∈ F.1.header := fold_header_mono hlin
  have hcin1 : cc ∈ F.1.header := fold_header_mono hcin
  have hrin1 : rc ∈ F.1.header := fold_header_mono hrin
  have hcols : interactionCols F.2 F.1.header ir =
      [lc, cc] ++ (if ir then [rc] else []) := by
    simp only [interactionCols, hml, hmc, hmr, if_pos hlin1, if_pos hcin1,
      if_pos hrin1]
    cases ir <;> rfl
  have hne : ¬(interactionCols F.2 F.1.header ir).isEmpty = true := by
    rw [hcols]
    cases ir <;> simp
  have hel : cellAt F.1 lc i = .num (to_numeric_int (cellAt t lc i)) :=
    fold_cellAt_coerced hwf (by decide) hl hlin hlf hi
  have hec : cellAt F.1 cc i = .num (to_numeric_int (cellAt t cc i)) :=
    fold_cellAt_coerced hwf (by decide) hc hcin hcf hi
  have her : cellAt F.1 rc i = .num (to_numeric_int (cellAt t rc i)) :=
    fold_cellAt_coerced hwf (by decide) hr hrin hrf hi
  have htotv : cellAt (addTotal F.1 F.2 ir) totalName i =
      .num (rowTotal F.1.header (interactionCols F.2 F.1.header ir)
        (rowAt F.1 i)) := addTotal_cellAt_total hw1 hi1 hne
  have hrt : rowTotal F.1.header (interactionCols F.2 F.1.header ir)
      (rowAt F.1 i) =
      to_numeric_int (cellAt t lc i) + to_numeric_int (cellAt t cc i) +
        (if ir then to_numeric_int (cellAt t rc i) else 0) := by
    have gl : getCellRow F.1.header (rowAt F.1 i) lc = cellAt F.1 lc i := rfl
    have gc : getCellRow F.1.header (rowAt F.1 i) cc = cellAt F.1 cc i := rfl
    have gr : getCellRow F.1.header (rowAt F.1 i) rc = cellAt F.1 rc i := rfl
    rw [hcols]
    cases ir
    · show rowTotal F.1.header [lc, cc] (rowAt F.1 i) = _
      rw [rowTotal]
      simp only [List.map_cons, List.map_nil, List.sum_cons, List.sum_nil]
      rw [gl, gc, hel, hec]
      show to_numeric_int (cellAt t lc i) +
          (to_numeric_int (cellAt t cc i) + 0) =
        to_numeric_int (cellAt t lc i) + to_numeric_int (cellAt t cc i) + 0
      omega
    · show rowTotal F.1.header [lc, cc, rc] (rowAt F.1 i) = _
      rw [rowTotal]
      simp only [List.map_cons, List.map_nil, List.sum_cons, List.sum_nil]
      rw [gl, gc, gr, hel, hec, her]
      show to_numeric_int (cellAt t lc i) + (to_numeric_int (cellAt t cc i) +
          (to_numeric_int (cellAt t rc i) + 0)) =
        to_numeric_int (cellAt t lc i) + to_numeric_int (cellAt t cc i) +
          to_numeric_int (cellAt t rc i)
      omega
  have hmts : F.2 .timestamp = m .timestamp := fold_map_nonmetric (by decide)
  have hw2 : wellFormed (addTotal F.1 F.2 ir) := addTotal_wf _ _ hw1
  have hi2 : i < (addTotal F.1 F.2 ir).rows.length := by
    rw [addTotal_rows_length]
    exact hi1
  have ht3 : cellAt (tsStep (addTotal F.1 F.2 ir) F.2) totalName i =
      cellAt (addTotal F.1 F.2 ir) totalName i := by
    refine cellAt_tsStep_ne hw2 ?_ (by decide) (by decide) hi2
    intro ts h heq
    apply hts
    rw [← hmts, h, heq]
  have hw3 : wellFormed (tsStep (addTotal F.1 F.2 ir) F.2) := tsStep_wf _ hw2
  have hi3 : i < (tsStep (addTotal F.1 F.2 ir) F.2).rows.length := by
    rw [tsStep_rows_length]
    exact hi2
  have ht4 : cellAt (googleStep (tsStep (addTotal F.1 F.2 ir) F.2) F.2)
      totalName i = cellAt (tsStep (addTotal F.1 F.2 ir) F.2) totalName i :=
    cellAt_googleStep_ne hw3 (by decide) hi3
  rw [ht4, ht3, htotv, hrt]

/-- C1 counterexample: a likes cell holding the numeric value −5 is not
clamped — `pd.to_numeric(...).fillna(0)` only replaces parse failures, never
negative values — so the enriched record's `total_interactions` is −5,
violating the claimed `total_interactions ≥ 0`. -/
theorem C1_counterexample :
    cellAt (enrich mC1 true tC1neg).1 totalName 0 = .num (-5) ∧
    (-5 : Int) < 0 := by
  constructor
  · decide
  · decide

/-- C1 (amended): for a table and a mapping whose likes, comments and reposts
roles point at present columns (that are not named after a metric role, and
with the timestamp role not pointing at a column named `total_interactions`),
every enriched record's `total_interactions` equals the sum of the coerced
likes and comments cells plus the coerced reposts cell when reposts are
included — each coercion failure contributing 0 — and the sum is non-negative
whenever every mapped metric cell coerces to a non-negative value; negative
numeric cells are summed as-is, so the total itself can be negative. -/
theorem C1_total_is_unclamped_sum {m : RoleMap} {ir : Bool} {t : Table}
    {lc cc rc : Str} (hwf : wellFormed t)
    (hl : m .likes = some lc) (hlin : lc ∈ t.header)
    (hc : m .comments = some cc) (hcin : cc ∈ t.header)
    (hr : m .reposts = some rc) (hrin : rc ∈ t.header)
    (hlf : lc ∉ metricNames) (hcf : cc ∉ metricNames) (hrf : rc ∉ metricNames)
    (hts : m .timestamp ≠ some totalName)
    {i : Nat} (hi : i < t.rows.length) :
    cellAt (enrich m ir t).1 totalName i =
      .num (to_numeric_int (cellAt t lc i) + to_numeric_int (cellAt t cc i) +
        (if ir then to_numeric_int (cellAt t rc i) else 0)) ∧
    (0 ≤ to_numeric_int (cellAt t lc i) → 0 ≤ to_numeric_int (cellAt t cc i) →
      0 ≤ to_numeric_int (cellAt t rc i) →
      0 ≤ to_numeric_int (cellAt t lc i) + to_numeric_int (cellAt t cc i) +
        (if ir then to_numeric_int (cellAt t rc i) else 0)) := by
  refine ⟨enrich_total_eq hwf hl hlin hc hcin hr hrin hlf hcf hrf hts hi, ?_⟩
  intro h1 h2 h3
  cases ir
  · show 0 ≤ to_numeric_int (cellAt t lc i) + to_numeric_int (cellAt t cc i) + 0
    omega
  · show 0 ≤ to_numeric_int (cellAt t lc i) + to_numeric_int (cellAt t cc i) +
      to_numeric_int (cellAt t rc i)
    omega

/-- Witness for C1's amended theorem at the Scenario A row `(5, 2, 1)`:
`total_interactions = 8`. -/
theorem C1_total_is_unclamped_sum_witness :
    cellAt (enrich mC1 true tC1pos).1 totalName 0 = .num 8 := by
  have h := @C1_total_is_unclamped_sum mC1 true tC1pos ['l'] ['c'] ['r']
    (by decide) rfl (by decide) rfl (by decide) rfl (by decide) (by decide)
    (by decide) (by decide) (by decide) 0 (by decide)
  rw [h.1]
  decide

/-- C5 counterexample: invoked with a ColumnMapping that omits the required
likes role entirely, `enrich` does not raise any error — no `EnrichmentError`
class exists in the repository.  It synthesizes a zero column named `likes`,
rebinds the mapping to it, sums the remaining metric columns into
`total_interactions`, and returns a complete table. -/
theorem C5_counterexample :
    mC5 .likes = none ∧
    (enrich mC5 true tC5).2 .likes = some (roleName .likes) ∧
    cellAt (enrich mC5 true tC5).1 totalName 0 = .num 5 ∧
    (enrich mC5 true tC5).1.rows.length = 1 := by
  refine ⟨rfl, by decide, by decide, by decide⟩

/-- C5 (amended): enrichment never raises on any mapping: `enrich` is a total
function that preserves the row count of every input table whatever the
mapping (missing required roles are replaced by synthesized zero columns); in
the linkedin variant the `mandatory` check — which halts the app before
`prep` — fires exactly when likes, comments, reposts or author is unmapped.
Per-cell irregularities degrade to sentinels (0, NaT, the string `nan`)
inside `enrich` rather than raising. -/
theorem C5_enrich_total_function (m : RoleMap) (ir : Bool) (t : Table) :
    (enrich m ir t).1.rows.length = t.rows.length ∧
    (mandatory_missing m = true ↔
      m .likes = none ∨ m .comments = none ∨ m .reposts = none ∨
        m .author = none) := by
  refine ⟨enrich_rows_length m ir t, ?_⟩
  rw [mandatory_missing]
  simp only [Bool.or_eq_true, Option.isNone_iff_eq_none]
  tauto

/-- C7 counterexample: with views unmapped, `enrich` synthesizes a zero
column named `views`, appends it to the table, and rebinds the shared
`map_cols` dictionary so that the views role now points at that synthesized
column — the mapping is not immutable and the absent role is not kept as an
explicit absent value. -/
theorem C7_counterexample :
    mC7 .views = none ∧
    (enrich mC7 true tC7).2 .views = some (roleName .views) ∧
    roleName .views ∈ (enrich mC7 true tC7).1.header := by
  refine ⟨rfl, by decide, by decide⟩

/-- C7 (amended): `enrich` leaves a mapping entry unchanged exactly for the
roles it does not redefine: a metric role bound to a column present in the
input table keeps its entry, and every non-metric role (content, url,
timestamp, author) keeps its entry; a metric role that is unmapped or bound
to a missing column is rebound to the synthesized zero column named after the
role. -/
theorem C7_mapping_mutation_scope (m : RoleMap) (ir : Bool) (t : Table) :
    (∀ ρ ∈ metricRoles, ∀ c, m ρ = some c → c ∈ t.header →
      (enrich m ir t).2 ρ = m ρ) ∧
    (∀ ρ, ρ ∉ metricRoles → (enrich m ir t).2 ρ = m ρ) := by
  by_cases hg : t.rows.isEmpty ∨ t.header.isEmpty
  · rw [enrich, if_pos hg]
    exact ⟨fun ρ _ c _ _ => rfl, fun ρ _ => rfl⟩
  · rw [enrich, if_neg hg]
    constructor
    · intro ρ hρ c hc hin
      show (metricRoles.foldl normMetric (t, m)).2 ρ = m ρ
      rw [fold_map_of_present hρ hc hin, hc]
    · intro ρ hρ
      show (metricRoles.foldl normMetric (t, m)).2 ρ = m ρ
      exact fold_map_nonmetric hρ

/-- Witness for C7's amended theorem: the likes entry of `mC7` survives
enrichment unchanged, and so does the (unmapped) content entry. -/
theorem C7_mapping_mutation_scope_witness :
    (enrich mC7 true tC7).2 .likes = mC7 .likes ∧
    (enrich mC7 true tC7).2 .content = mC7 .content :=
  ⟨(C7_mapping_mutation_scope mC7 true tC7).1 .likes (by decide) ['l'] rfl
      (by decide),
    (C7_mapping_mutation_scope mC7 true tC7).2 .content (by decide)⟩

/-- Every aggregation field is `posts`, an `avg_<metric>` name, or
`avg_total`. -/
theorem aggFields_sub {m : RoleMap} {cols : List Str} {x : Str}
    (hx : x ∈ aggFields m cols) :
    x = ['p', 'o', 's', 't', 's'] ∨
    (∃ ρ ∈ metricRoles, x = ['a', 'v', 'g', '_'] ++ roleName ρ) ∨
    x = ['a', 'v', 'g', '_', 't', 'o', 't', 'a', 'l'] := by
  rw [aggFields] at hx
  rcases List.mem_append.mp hx with h1 | h1
  · rcases List.mem_append.mp h1 with h2 | h2
    · exact Or.inl (by simpa using h2)
    · rcases List.mem_filterMap.mp h2 with ⟨ρ, hρ, hf⟩
      refine Or.inr (Or.inl ⟨ρ, hρ, ?_⟩)
      cases hm : m ρ with
      | some cn =>
        rw [hm] at hf
        by_cases hin : cn ∈ cols
        · simp only [if_pos hin, Option.some.injEq] at hf
          exact hf.symm
        · simp only [if_neg hin] at hf
          exact Option.noConfusion hf
      | none =>
        rw [hm] at hf
        exact Option.noConfusion hf
  · by_cases hin : totalName ∈ cols
    · rw [if_pos hin] at h1
      exact Or.inr (Or.inr (by simpa using h1))
    · rw [if_neg hin] at h1
      cases h1

/-- C2 counterexample: with views mapped and the row's views value 50 ≠ 0,
the enriched table still has no `engagement_rate` column — the code never
derives that field — and the Compare aggregation derives no per-brand mean
for it either.  The claimed `engagement_rate = total/views·100` is computed
nowhere. -/
theorem C2_counterexample :
    to_numeric_int (cellAt tC2 ['v'] 0) = 50 ∧
    engagementName ∉ (enrich mC2 true tC2).1.header ∧
    engagementName ∉ aggFields mC2 ((enrich mC2 true tC2).1.header) := by
  refine ⟨by decide, by decide, by decide⟩

/-- C2 (amended): neither enricher run nor the Compare aggregation ever
produces an engagement-rate field: an input table without an
`engagement_rate` column enriches to a table without one (the derived
columns are exactly the metric defaults, `total_interactions`, `date_time`,
`date` and `google_topic`), and no `aggFields` list ever contains
`engagement_rate`, so no per-brand mean of it exists — absent for every
brand, with or without a mapped views role. -/
theorem C2_engagement_rate_never_exists {m : RoleMap} {ir : Bool} {t : Table}
    (h : engagementName ∉ t.header) :
    engagementName ∉ (enrich m ir t).1.header ∧
    ∀ m2 cols, engagementName ∉ aggFields m2 cols := by
  constructor
  · intro hx
    rcases enrich_header_sub hx with h1 | h1 | h1 | h1 | h1 | h1
    · exact h h1
    · exact absurd h1 (by decide)
    · exact absurd h1 (by decide)
    · exact absurd h1 (by decide)
    · exact absurd h1 (by decide)
    · exact absurd h1 (by decide)
  · intro m2 cols hx
    rcases aggFields_sub hx with h1 | ⟨ρ, hρ, h1⟩ | h1
    · exact absurd h1 (by decide)
    · have hρ4 : ρ = .likes ∨ ρ = .comments ∨ ρ = .reposts ∨ ρ = .views := by
        rcases List.mem_cons.mp hρ with hh | hh
        · exact Or.inl hh
        rcases List.mem_cons.mp hh with hh' | hh'
        · exact Or.inr (Or.inl hh')
        rcases List.mem_cons.mp hh' with hh'' | hh''
        · exact Or.inr (Or.inr (Or.inl hh''))
        rcases List.mem_cons.mp hh'' with hh3 | hh3
        · exact Or.inr (Or.inr (Or.inr hh3))
        · simp at hh3
      rcases hρ4 with rfl | rfl | rfl | rfl
      · exact absurd h1 (by decide)
      · exact absurd h1 (by decide)
      · exact absurd h1 (by decide)
      · exact absurd h1 (by decide)
    · exact absurd h1 (by decide)

/-- Witness for C2's amended theorem at the concrete views-mapped run. -/
theorem C2_engagement_rate_never_exists_witness :
    engagementName ∉ (enrich mC2 true tC2).1.header ∧
    engagementName ∉ aggFields mC2 [totalName] :=
  ⟨(@C2_engagement_rate_never_exists mC2 true tC2 (by decide)).1,
    (@C2_engagement_rate_never_exists mC2 true tC2 (by decide)).2 mC2 [totalName]⟩

/-- C8 counterexample: with the content role unmapped, enrichment in the
linkedin variant does not succeed: `prep` indexes the table with
`map_cols["content"]` unconditionally (line 97), which raises a `KeyError`
(modelled `none`) instead of producing all-false topic flags — even though
likes, comments, reposts and author are all mapped and every cell is
regular. -/
theorem C8_counterexample :
    mC8 .content = none ∧ mandatory_missing mC8 = false ∧
    prep mC8 tC8 = none := by
  refine ⟨rfl, by decide, by decide⟩

/-- C8 (amended): in the `sel_x_analyzer.py` variant the claim's behaviour
holds: when the content role is mapped to a present column (left untouched by
the other derivation steps), each row's `google_topic` flag is exactly the
case-insensitive substring test of the fixed keyword `google` against the
string rendering of that row's content cell; when content is unmapped the
flag is false on every row and enrichment still succeeds with the same row
count.  The `sel_linkedin_analyzer.py` variant instead raises on every table
when content is unmapped: `prep` returns no table at all (see the
counterexample), so the claim's unmapped clause holds only for the x
variant. -/
theorem C8_topic_flag_substring {m : RoleMap} {ir : Bool} {t : Table}
    (hwf : wellFormed t) :
    (∀ cn, m .content = some cn → cn ∈ t.header →
      (∀ ρ ∈ metricRoles, m ρ ≠ some cn) → cn ∉ metricNames →
      cn ≠ totalName → cn ≠ dateTimeName → cn ≠ dateName →
      m .timestamp ≠ some cn →
      ∀ i, i < t.rows.length →
        cellAt (enrich m ir t).1 googleName i =
          .boolv (containsSub googleKw (lowerStr (cellToStr (cellAt t cn i))))) ∧
    (m .content = none → t.header ≠ [] →
      (∀ i, i < t.rows.length →
        cellAt (enrich m ir t).1 googleName i = .boolv false) ∧
      (enrich m ir t).1.rows.length = t.rows.length) ∧
    (m .content = none → ∀ t2, prep m t2 = none) := by
  refine ⟨?_, ?_, ?_⟩
  · intro cn hcc hin hnm hnf hn1 hn2 hn3 hnts i hi
    have hg : ¬(t.rows.isEmpty ∨ t.header.isEmpty) := by
      rintro (h | h)
      · rw [List.isEmpty_iff] at h
        rw [h] at hi
        simp at hi
      · rw [List.isEmpty_iff] at h
        rw [h] at hin
        simp at hin
    rw [enrich_eq_core hg]
    set F := metricRoles.foldl normMetric (t, m) with hF
    show cellAt (googleStep (tsStep (addTotal F.1 F.2 ir) F.2) F.2)
      googleName i = _
    have hFc : F.2 .content = some cn :=
      (fold_map_nonmetric (by decide)).trans hcc
    have hw1 : wellFormed F.1 := fold_wf hwf
    have hi1 : i < F.1.rows.length := by rw [fold_rows_length]; exact hi
    have hw2 : wellFormed (addTotal F.1 F.2 ir) := addTotal_wf _ _ hw1
    have hi2 : i < (addTotal F.1 F.2 ir).rows.length := by
      rw [addTotal_rows_length]
      exact hi1
    have hw3 : wellFormed (tsStep (addTotal F.1 F.2 ir) F.2) := tsStep_wf _ hw2
    have hi3 : i < (tsStep (addTotal F.1 F.2 ir) F.2).rows.length := by
      rw [tsStep_rows_length]
      exact hi2
    have hin3 : cn ∈ (tsStep (addTotal F.1 F.2 ir) F.2).header :=
      tsStep_header_mono _ (addTotal_header_mono _ _ (fold_header_mono hin))
    rw [googleStep_eq_mapped hFc hin3, googleCol_cellAt hw3 hi3]
    have e3 : cellAt (tsStep (addTotal F.1 F.2 ir) F.2) cn i =
        cellAt (addTotal F.1 F.2 ir) cn i := by
      refine cellAt_tsStep_ne hw2 ?_ hn2 hn3 hi2
      intro ts hts' heq
      apply hnts
      exact ((fold_map_nonmetric
        (show Role.timestamp ∉ metricRoles by decide)).symm.trans hts').trans
        (by rw [heq])
    have e2 : cellAt (addTotal F.1 F.2 ir) cn i = cellAt F.1 cn i :=
      cellAt_addTotal_ne hw1 hn1 hi1
    have e1 : cellAt F.1 cn i = cellAt t cn i :=
      fold_cellAt_keep hwf hnm hnf hi
    rw [e3, e2, e1]
  · intro hcc hne
    constructor
    · intro i hi
      have hg : ¬(t.rows.isEmpty ∨ t.header.isEmpty) := by
        rintro (h | h)
        · rw [List.isEmpty_iff] at h
          rw [h] at hi
          simp at hi
        · rw [List.isEmpty_iff] at h
          exact hne h
      rw [enrich_eq_core hg]
      set F := metricRoles.foldl normMetric (t, m) with hF
      show cellAt (googleStep (tsStep (addTotal F.1 F.2 ir) F.2) F.2)
        googleName i = _
      have hFc : F.2 .content = none :=
        (fold_map_nonmetric (by decide)).trans hcc
      have hw3 : wellFormed (tsStep (addTotal F.1 F.2 ir) F.2) :=
        tsStep_wf _ (addTotal_wf _ _ (fold_wf hwf))
      have hi3 : i < (tsStep (addTotal F.1 F.2 ir) F.2).rows.length := by
        rw [tsStep_rows_length, addTotal_rows_length, fold_rows_length]
        exact hi
      rw [googleStep_eq_flag_false (Or.inl hFc), cellAt_mapCol_self _ hw3 hi3]
    · exact enrich_rows_length m ir t
  · intro hcc t2
    rw [prep]
    cases m .likes with
    | none => rfl
    | some lc =>
      cases m .comments with
      | none => rfl
      | some cc =>
        cases m .reposts with
        | none => rfl
        | some rc =>
          by_cases hin : lc ∈ t2.header ∧ cc ∈ t2.header ∧ rc ∈ t2.header
          · simp only [if_pos hin]
            cases tsStepL (mapCol (coerceCol (coerceCol (coerceCol t2 lc) cc)
                rc) totalName (fun r => .num (rowTotal (coerceCol (coerceCol
                (coerceCol t2 lc) cc) rc).header [lc, cc, rc] r))) m with
            | none => rfl
            | some t3 => rw [hcc]
          · simp only [if_neg hin]

/-- Witness for C8's amended theorem: the Scenario B content cell
`check out Google` sets `google_topic` to true, case-insensitively. -/
theorem C8_topic_flag_substring_witness :
    cellAt (enrich mC8w true tC8w).1 googleName 0 = .boolv true := by
  have h := (@C8_topic_flag_substring mC8w true tC8w (by decide)).1 ['t'] rfl
    (by decide) (by decide) (by decide) (by decide) (by decide) (by decide)
    (by decide) 0 (by decide)
  rw [h]
  decide

/-- C10: when no pattern of any metric role matches any column, every one of
the four metric roles (likes, comments, reposts, views) is assigned the same
column — the first column of numeric dtype — and under the resulting mapping
the value of that single column is counted once per summed role, so with
reposts included `total_interactions` is three times the cell's coerced
value. -/
theorem C10_shared_numeric_fallback {t : Table} {c : Str}
    (hwf : wellFormed t)
    (hg : ¬(t.rows.isEmpty ∨ t.header.isEmpty))
    (hdet : ∀ ρ ∈ metricRoles, detect_column t (rolePatterns ρ) = none)
    (hnum : firstNumeric t = some c)
    (hcf : c ∉ metricNames)
    (hts : detect_columns t .timestamp ≠ some totalName)
    {i : Nat} (hi : i < t.rows.length) :
    (∀ ρ ∈ metricRoles, detect_columns t ρ = some c) ∧
    cellAt (enrich (detect_columns t) true t).1 totalName i =
      .num (3 * to_numeric_int (cellAt t c i)) := by
  have hdc : ∀ ρ ∈ metricRoles, detect_columns t ρ = some c := by
    intro ρ hρ
    rw [detect_columns, if_neg hg]
    show roleFallback t ρ (detect_column t (rolePatterns ρ)) = some c
    rw [hdet ρ hρ]
    show (if ρ ∈ metricRoles then firstNumeric t else none) = some c
    rw [if_pos hρ, hnum]
  have hnum' : t.header.find?
      (fun cn => is_numeric_dtype (getColCells t cn)) = some c := hnum
  have hmem : c ∈ t.header := List.mem_of_find?_eq_some hnum'
  refine ⟨hdc, ?_⟩
  have h := @enrich_total_eq (detect_columns t) true t c c c hwf
    (hdc .likes (by decide)) hmem (hdc .comments (by decide)) hmem
    (hdc .reposts (by decide)) hmem hcf hcf hcf hts i hi
  rw [h]
  show Cell.num (to_numeric_int (cellAt t c i) + to_numeric_int (cellAt t c i) +
    to_numeric_int (cellAt t c i)) = _
  exact congrArg Cell.num (by omega)

/-- Witness for C10: on `tC10` all four metric roles resolve to the numeric
column `xq` and the total triple-counts its value 4. -/
theorem C10_shared_numeric_fallback_witness :
    detect_columns tC10 .likes = some ['x', 'q'] ∧
    detect_columns tC10 .views = some ['x', 'q'] ∧
    cellAt (enrich (detect_columns tC10) true tC10).1 totalName 0 = .num 12 := by
  have h := @C10_shared_numeric_fallback tC10 ['x', 'q'] (by decide)
    (by decide) (by decide) (by decide) (by decide) (by decide) 0 (by decide)
  exact ⟨h.1 .likes (by decide), h.1 .views (by decide), by rw [h.2]; decide⟩

end SelAnalyzer
